import Mathlib

/-!
# LDtkViewer: the 2D camera and the interaction controller

A shallow embedding of `src/Camera2D.cpp` and of the event handling of
`src/App.cpp`, followed by the properties proved about them.

Conventions of the embedding

* The camera is embedded twice. `Binary32.Camera2D` follows the source in the
  arithmetic it runs in: `float` is IEEE 754 binary32 (`Float32`), each
  operation rounded on its own to nearest, ties to even, with signed zeros,
  infinities and NaN. `Camera2D` reads the same lines in exact arithmetic over
  `ℚ`, without rounding, overflow or underflow; it is the camera the controller
  state carries, and what is proved of its arithmetic is stated as holding in
  exact arithmetic.
* `int` values are mathematical integers; where the source mixes `int` with
  `std::size_t` (the depth cycle) the conversions are made explicit with
  `% 2^32` and `% 2^64`.
* `std::map<std::string, T>` is an association list kept in key order.
* A source path that throws (`std::map::at` on a missing key) or has no defined
  behaviour (indexing an empty vector, dereferencing `begin()` of an empty map)
  is `none`.
-/

namespace LDtkViewer

/-! ## Vectors -/

/-- The type `glm::vec2`, with exact components. -/
structure Vec2 where
  x : ℚ
  y : ℚ
deriving DecidableEq

/-- The type `glm::vec3`, with exact components. -/
structure Vec3 where
  x : ℚ
  y : ℚ
  z : ℚ
deriving DecidableEq

/-- The type `glm::vec<2, int>`. -/
structure IVec2 where
  x : Int
  y : Int
deriving DecidableEq

/-! ## The type float -/

/-- A value of the type `float` (IEEE 754 binary32): a NaN, an infinity, or the finite value
`(-1)^neg * m * 2^e`; a zero has `m = 0`. The operations below return finite values with
`m < 2^24` and `-149 ≤ e ≤ 104`, and `2^23 ≤ m` unless `e = -149`. -/
inductive Float32 where
  | nan
  | inf (neg : Bool)
  | fin (neg : Bool) (m : Nat) (e : Int)
deriving DecidableEq

namespace Float32

/-- The number of binary digits of `n`, with `fuel` halvings at most. -/
def bitLengthAux : Nat → Nat → Nat
  | 0, _ => 0
  | fuel + 1, n => if n = 0 then 0 else bitLengthAux fuel (n / 2) + 1

/-- The number of binary digits of `n`. -/
def bitLength (n : Nat) : Nat :=
  bitLengthAux n n

/-- The fraction `n / (d * 2^e)` as a numerator and a denominator. -/
def scale (n d : Nat) (e : Int) : Nat × Nat :=
  if 0 ≤ e then (n, d * 2 ^ e.toNat) else (n * 2 ^ (-e).toNat, d)

/-- Rounding of the exact value `(-1)^neg * n / d` (with `d > 0`) to binary32, to nearest with
ties to even: 24 significant bits, subnormals below `2^-126`, an infinity from
`(2^24 - 1/2) * 2^104` on. -/
def nearest (neg : Bool) (n d : Nat) : Float32 :=
  if n = 0 then fin neg 0 (-149)
  else
    let e0 : Int := (bitLength n : Int) - (bitLength d : Int) - 24
    let e1 : Int := if (scale n d e0).1 / (scale n d e0).2 < 2 ^ 24 then e0 else e0 + 1
    let e : Int := if e1 < -149 then -149 else e1
    let num := (scale n d e).1
    let den := (scale n d e).2
    let q := num / den
    let r := num % den
    let q' := if den < 2 * r ∨ (2 * r = den ∧ q % 2 = 1) then q + 1 else q
    if q' = 2 ^ 24 then
      if 104 < e + 1 then inf neg else fin neg (2 ^ 23) (e + 1)
    else if 104 < e then inf neg
    else fin neg q' e

/-- Conversion of an `int` to `float`. -/
def ofInt (z : Int) : Float32 :=
  nearest (decide (z < 0)) z.natAbs 1

/-- The `float` nearest to the fraction `num / den`, the value of a decimal literal. -/
def ofFrac (num : Int) (den : Nat) : Float32 :=
  nearest (decide (num < 0)) num.natAbs den

/-- Unary minus on `float`. -/
def neg : Float32 → Float32
  | nan => nan
  | inf s => inf (!s)
  | fin s m e => fin (!s) m e

/-- Subtraction on `float`. An exact zero difference is `-0` only for `(-0) - (+0)`. -/
def sub : Float32 → Float32 → Float32
  | nan, _ => nan
  | _, nan => nan
  | inf s, inf t => if s = t then nan else inf s
  | inf s, fin _ _ _ => inf s
  | fin _ _ _, inf t => inf (!t)
  | fin s m e, fin t n f =>
    let g : Int := if e ≤ f then e else f
    let a : Int := (if s then -1 else 1) * ((m * 2 ^ (e - g).toNat : Nat) : Int)
    let b : Int := (if t then -1 else 1) * ((n * 2 ^ (f - g).toNat : Nat) : Int)
    let d : Int := a - b
    if d = 0 then fin (s && !t) 0 (-149)
    else nearest (decide (d < 0)) (scale d.natAbs 1 (-g)).1 (scale d.natAbs 1 (-g)).2

/-- Multiplication on `float`. -/
def mul : Float32 → Float32 → Float32
  | nan, _ => nan
  | _, nan => nan
  | inf s, inf t => inf (xor s t)
  | inf s, fin t n _ => if n = 0 then nan else inf (xor s t)
  | fin s m _, inf t => if m = 0 then nan else inf (xor s t)
  | fin s m e, fin t n f =>
    nearest (xor s t) (scale (m * n) 1 (-(e + f))).1 (scale (m * n) 1 (-(e + f))).2

/-- Division on `float`. -/
def div : Float32 → Float32 → Float32
  | nan, _ => nan
  | _, nan => nan
  | inf _, inf _ => nan
  | inf s, fin t _ _ => inf (xor s t)
  | fin s _ _, inf t => fin (xor s t) 0 (-149)
  | fin s m e, fin t n f =>
    if n = 0 then (if m = 0 then nan else inf (xor s t))
    else nearest (xor s t) (scale m n (f - e)).1 (scale m n (f - e)).2

/-- The function `std::floor` on `float`. -/
def floor : Float32 → Float32
  | nan => nan
  | inf s => inf s
  | fin s m e =>
    if 0 ≤ e ∨ m = 0 then fin s m e
    else
      let q := m / 2 ^ (-e).toNat
      let r := m % 2 ^ (-e).toNat
      if s then nearest true (if r = 0 then q else q + 1) 1
      else nearest false q 1

/-- The exact value of a finite `float` (0 for a NaN or an infinity). -/
def toRat : Float32 → ℚ
  | nan => 0
  | inf _ => 0
  | fin s m e => (if s then -1 else 1) * (m : ℚ) * (2 : ℚ) ^ e

end Float32

/-! ## Camera2D (src/Camera2D.cpp), in exact arithmetic -/

/-- The members of `Camera2D`: the viewport size and the transform `(tx, ty, zoom)`. -/
structure Camera2D where
  m_size : Vec2
  m_transform : Vec3
deriving DecidableEq

namespace Camera2D

/-- Modelled from the spec: the member initialisers of Camera2D.hpp, which is not among the
sources. The transform starts at `(0, 0, 1)` ("zoom ... initial value 1.0"); the size is the
constructor argument (`Camera2D::Camera2D(const glm::vec2& size) : m_size(size)`). -/
def new (size : Vec2) : Camera2D :=
  { m_size := size, m_transform := ⟨0, 0, 1⟩ }

/-- Modelled from the spec: `Camera2D::setSize`, defined in Camera2D.hpp, which is not among the
sources ("`resize(new_size)`: sets `size`"). -/
def setSize (c : Camera2D) (size : Vec2) : Camera2D :=
  { c with m_size := size }

/-- Modelled from the spec: `Camera2D::getZoom`, defined in Camera2D.hpp, which is not among the
sources; it reads the zoom component of the transform. -/
def getZoom (c : Camera2D) : ℚ :=
  c.m_transform.z

/-- `Camera2D::move`: `m_transform.x -= x; m_transform.y -= y;`, in exact arithmetic. -/
def move (c : Camera2D) (x y : ℚ) : Camera2D :=
  { c with m_transform := ⟨c.m_transform.x - x, c.m_transform.y - y, c.m_transform.z⟩ }

/-- `Camera2D::zoom`: `m_transform.z *= z;`, in exact arithmetic. -/
def zoom (c : Camera2D) (z : ℚ) : Camera2D :=
  { c with m_transform := ⟨c.m_transform.x, c.m_transform.y, c.m_transform.z * z⟩ }

/-- `Camera2D::centerOn`: `m_transform.x = -x; m_transform.y = -y;`. -/
def centerOn (c : Camera2D) (x y : ℚ) : Camera2D :=
  { c with m_transform := ⟨-x, -y, c.m_transform.z⟩ }

/-- The template `pow` at `T = int` (it is called as `pow(10, precision)`):
`p == 0 ? 1 : n * pow(n, p-1)`. -/
def pow (n : Int) : Nat → Int
  | 0 => 1
  | p + 1 => n * pow n p

/-- The template `round<precision>` read in exact arithmetic:
`std::floor(val * pow(10, precision)) / pow(10, precision)` without the three roundings of the
`float` operations, which `Binary32.Camera2D.round` has. -/
def round (precision : Nat) (val : ℚ) : ℚ :=
  ((⌊val * ((pow 10 precision : Int) : ℚ)⌋ : Int) : ℚ) / ((pow 10 precision : Int) : ℚ)

/-- `Camera2D::getTransform` read in exact arithmetic. A quotient by a zero size component
has no value in exact arithmetic, so the result is `none` then (the source divides floats and
gets an infinity or a NaN, see `Binary32.Camera2D.getTransform`). The method has no
assignment, so it is a function of the camera state that returns the vector only. -/
def getTransform (c : Camera2D) : Option Vec3 :=
  if c.m_size.x = 0 ∨ c.m_size.y = 0 then none
  else
    some
      ⟨round 3 (c.m_transform.x / c.m_size.x),
       round 3 (c.m_transform.y / c.m_size.y),
       round 3 c.m_transform.z⟩

end Camera2D

/-- A call made on a camera by the controller: `move(x, y)` or `zoom(z)`. -/
inductive CameraCall where
  | move (x y : ℚ)
  | zoom (z : ℚ)
deriving DecidableEq

namespace CameraCall

/-- Performs one call on a camera. -/
def apply (c : Camera2D) : CameraCall → Camera2D
  | move x y => c.move x y
  | zoom z => c.zoom z

/-- Performs the calls on a camera, first to last. -/
def replay (c : Camera2D) (calls : List CameraCall) : Camera2D :=
  calls.foldl apply c

/-- The `move` calls of a sequence, in order. -/
def moves : List CameraCall → List (ℚ × ℚ)
  | [] => []
  | move x y :: rest => (x, y) :: moves rest
  | zoom _ :: rest => moves rest

/-- The `zoom` factors of a sequence, in order. -/
def zooms : List CameraCall → List ℚ
  | [] => []
  | move _ _ :: rest => zooms rest
  | zoom z :: rest => z :: zooms rest

end CameraCall

/-! ## Camera2D (src/Camera2D.cpp), in binary32 -/

namespace Binary32

/-- The type `glm::vec2`. -/
structure Vec2 where
  x : Float32
  y : Float32
deriving DecidableEq

/-- The type `glm::vec3`. -/
structure Vec3 where
  x : Float32
  y : Float32
  z : Float32
deriving DecidableEq

/-- The members of `Camera2D`: the viewport size and the transform `(tx, ty, zoom)`. -/
structure Camera2D where
  m_size : Vec2
  m_transform : Vec3
deriving DecidableEq

namespace Camera2D

/-- Modelled from the spec: the member initialisers of Camera2D.hpp, which is not among the
sources. The transform starts at `(0, 0, 1)` ("zoom ... initial value 1.0"); the size is the
constructor argument (`Camera2D::Camera2D(const glm::vec2& size) : m_size(size)`). -/
def new (size : Vec2) : Camera2D :=
  { m_size := size, m_transform := ⟨Float32.ofInt 0, Float32.ofInt 0, Float32.ofInt 1⟩ }

/-- `Camera2D::move`: `m_transform.x -= x; m_transform.y -= y;`. -/
def move (c : Camera2D) (x y : Float32) : Camera2D :=
  { c with
    m_transform :=
      ⟨Float32.sub c.m_transform.x x, Float32.sub c.m_transform.y y, c.m_transform.z⟩ }

/-- `Camera2D::zoom`: `m_transform.z *= z;`. -/
def zoom (c : Camera2D) (z : Float32) : Camera2D :=
  { c with
    m_transform := ⟨c.m_transform.x, c.m_transform.y, Float32.mul c.m_transform.z z⟩ }

/-- `Camera2D::centerOn`: `m_transform.x = -x; m_transform.y = -y;`. -/
def centerOn (c : Camera2D) (x y : Float32) : Camera2D :=
  { c with m_transform := ⟨Float32.neg x, Float32.neg y, c.m_transform.z⟩ }

/-- The template `round<precision>`:
`std::floor(val * pow(10, precision)) / pow(10, precision)`, where the `int` that
`pow(10, precision)` returns is converted to `float` for the product and for the quotient. -/
def round (precision : Nat) (val : Float32) : Float32 :=
  Float32.div
    (Float32.floor (Float32.mul val (Float32.ofInt (LDtkViewer.Camera2D.pow 10 precision))))
    (Float32.ofInt (LDtkViewer.Camera2D.pow 10 precision))

/-- `Camera2D::getTransform`. The method has no assignment, so it is a function of the
camera state that returns the vector only. -/
def getTransform (c : Camera2D) : Vec3 :=
  ⟨round 3 (Float32.div c.m_transform.x c.m_size.x),
   round 3 (Float32.div c.m_transform.y c.m_size.y),
   round 3 c.m_transform.z⟩

end Camera2D

/-- A call made on a camera by the controller: `move(x, y)` or `zoom(z)`. -/
inductive CameraCall where
  | move (x y : Float32)
  | zoom (z : Float32)
deriving DecidableEq

namespace CameraCall

/-- Performs one call on a camera. -/
def apply (c : Camera2D) : CameraCall → Camera2D
  | move x y => c.move x y
  | zoom z => c.zoom z

/-- Performs the calls on a camera, first to last. -/
def replay (c : Camera2D) (calls : List CameraCall) : Camera2D :=
  calls.foldl apply c

/-- The `move` calls of a sequence, in order. -/
def moves : List CameraCall → List (Float32 × Float32)
  | [] => []
  | move x y :: rest => (x, y) :: moves rest
  | zoom _ :: rest => moves rest

/-- The `zoom` factors of a sequence, in order. -/
def zooms : List CameraCall → List Float32
  | [] => []
  | move _ _ :: rest => zooms rest
  | zoom z :: rest => z :: zooms rest

end CameraCall

end Binary32

/-! ## std::map keyed by std::string -/

/-- The type `std::map<std::string, V>`: the entries in ascending key order. -/
abbrev StdMap (V : Type) := List (String × V)

namespace StdMap

/-- Lookup of a key (`find`; `at` throws where this is `none`). -/
def find? {V : Type} : StdMap V → String → Option V
  | [], _ => none
  | (k', v) :: rest, k => if k' = k then some v else find? rest k

/-- Whether the key has an entry. -/
def contains {V : Type} (m : StdMap V) (k : String) : Bool :=
  (m.find? k).isSome

/-- Places a new entry at its position in key order (`std::string` compares character by
character). -/
def insertNew {V : Type} : StdMap V → String → V → StdMap V
  | [], k, v => [(k, v)]
  | (k', v') :: rest, k, v =>
    if k.data < k'.data then (k, v) :: (k', v') :: rest else (k', v') :: insertNew rest k v

/-- `std::map::insert`: adds the entry unless the key already has one, in which case the map
is left as it is. -/
def insert {V : Type} (m : StdMap V) (k : String) (v : V) : StdMap V :=
  if m.contains k then m else m.insertNew k v

/-- `std::map::erase(key)`. -/
def erase {V : Type} (m : StdMap V) (k : String) : StdMap V :=
  m.filter (fun e => decide (e.1 ≠ k))

/-- A write through the reference obtained for a key that has an entry
(`m[k].f(...)`, `m.at(k).f(...)`): the value at `k` is replaced by `f` of it. -/
def adjust {V : Type} (m : StdMap V) (k : String) (f : V → V) : StdMap V :=
  m.map (fun e => if e.1 = k then (e.1, f e.2) else e)

/-- A range-for over the map that writes to every value. -/
def mapValues {V : Type} (m : StdMap V) (f : V → V) : StdMap V :=
  m.map (fun e => (e.1, f e.2))

end StdMap

/-! ## The collaborators of the controller -/

/-- Modelled from the spec: a level of the map-file loader's world (LDtkProject.hpp is not
among the sources): "each level having a name, a rectangular bound (position+size)"; the
renderable layers are left out. -/
structure Level where
  name : String
  bounds_pos : Vec2
  bounds_size : Vec2
deriving DecidableEq

/-- Modelled from the spec: a world (LDtkProject.hpp is not among the sources): "a mapping
from integer depth to an ordered sequence of levels", with `int` keys. The entries of the
`std::map` are listed in ascending key order, so `begin()` is the head and `size()` the
length. -/
structure World where
  levels : List (Int × List Level)
deriving DecidableEq

/-- Modelled from the spec: a loaded document (LDtkProject.hpp is not among the sources): "a
set of worlds" and "a background color for the whole loaded document". -/
structure LDtkProject where
  worlds : List World
  bg_color : Vec3
deriving DecidableEq

/-- A value-initialised `LDtkProject` (the `{}` of `m_projects.insert({path, {}})`). -/
def LDtkProject.empty : LDtkProject :=
  { worlds := [], bg_color := ⟨0, 0, 0⟩ }

/-- The part of `sogl::Window` the controller reads and writes: its size and mouse position
(kept by the windowing library, read by the controller) and whether it is open. -/
structure Window where
  size : IVec2
  mousePosition : IVec2
  isOpen : Bool
deriving DecidableEq

/-- The struct `ProjectData`, declared in App.hpp, which is not among the sources; its members
are the ones App.cpp uses: `camera` and the `int` member `depth`. -/
structure ProjectData where
  camera : Camera2D
  depth : Int
deriving DecidableEq

/-- What App.cpp takes from code that is not among the sources: `LDtkProject::load`, called
on a project object (the contents of the object afterwards, and the value the call returns,
which tells whether the parse succeeded, or `none` when the call throws), and the default
member initialisers behind a value-initialised `ProjectData`. -/
structure Env where
  load : String → LDtkProject → LDtkProject × Option Bool
  defaultDepth : Int
  defaultSize : Vec2

/-- A value-initialised `ProjectData` (the `{}` of `m_projects_data.insert({path, {}})`). -/
def ProjectData.init (env : Env) : ProjectData :=
  { camera := Camera2D.new env.defaultSize, depth := env.defaultDepth }

/-- The two flags of `ImGui::GetIO()` the controller consults. -/
structure UiCapture where
  WantCaptureKeyboard : Bool
  WantCaptureMouse : Bool
deriving DecidableEq

/-- The variants of `sogl::Event` that `App::processEvent` asks for, and any other one. -/
inductive Event where
  | Resize (width height : Int)
  | Drop (files : List String)
  | Key (key action : Int)
  | MouseButton (button action : Int)
  | MouseMove (x y : Int)
  | Scroll (dx dy : ℚ)
  | Other
deriving DecidableEq

/-- The constant `GLFW_RELEASE`. -/
def GLFW_RELEASE : Int := 0

/-- The constant `GLFW_PRESS`. -/
def GLFW_PRESS : Int := 1

/-- The constant `GLFW_MOUSE_BUTTON_LEFT`. -/
def GLFW_MOUSE_BUTTON_LEFT : Int := 0

/-- The constant `GLFW_MOUSE_BUTTON_RIGHT`. -/
def GLFW_MOUSE_BUTTON_RIGHT : Int := 1

/-- The constant `GLFW_KEY_ESCAPE`. -/
def GLFW_KEY_ESCAPE : Int := 256

/-- Conversion of an integer value to `int` (32 bits, two's complement): a value out of range
wraps around. -/
def toInt32 (z : Int) : Int :=
  (z + 2 ^ 31) % 2 ^ 32 - 2 ^ 31

/-- Conversion of an `int` to `std::size_t` (64 bits). -/
def toSizeT (z : Int) : Nat :=
  (z % 2 ^ 64).toNat

/-- Conversion of a `glm::vec<2, int>` to a `glm::vec2`. -/
def IVec2.toVec2 (v : IVec2) : Vec2 :=
  ⟨(v.x : ℚ), (v.y : ℚ)⟩

/-! ## App (src/App.cpp) -/

/-- The state of the controller: the members of `App` that App.cpp uses (the class is
declared in App.hpp, which is not among the sources) and the two function-local statics of
`App::processEvent` (`camera_grabbed`, `grab_pos`). -/
structure App where
  m_window : Window
  m_projects : StdMap LDtkProject
  m_projects_data : StdMap ProjectData
  m_selected_project : String
  m_dummy_project : LDtkProject
  camera_grabbed : Bool
  grab_pos : IVec2
deriving DecidableEq

namespace App

/-- `App::App`: a 1280x720 window and the entry `""` of `m_projects_data`; the statics of
`processEvent` start as `camera_grabbed = false`. -/
def new (env : Env) : App :=
  { m_window := { size := ⟨1280, 720⟩, mousePosition := ⟨0, 0⟩, isOpen := true }
    m_projects := []
    m_projects_data := StdMap.insert [] "" (ProjectData.init env)
    m_selected_project := ""
    m_dummy_project := LDtkProject.empty
    camera_grabbed := false
    grab_pos := ⟨0, 0⟩ }

/-- `App::loadLDtkFile`: the state afterwards and the returned `bool`, or `none` in its place
when `load` throws and the exception leaves the function. The value returned by `load` is not
looked at by the source. -/
def loadLDtkFile (env : Env) (s : App) (path : String) : App × Option Bool :=
  let projects := s.m_projects.insert path LDtkProject.empty
  let loaded := env.load path ((projects.find? path).getD LDtkProject.empty)
  let projects := projects.adjust path (fun _ => loaded.1)
  match loaded.2 with
  | none => ({ s with m_projects := projects }, none)
  | some _ =>
    let data := s.m_projects_data.insert path (ProjectData.init env)
    let data := data.adjust path
      (fun d => { d with camera := d.camera.setSize s.m_window.size.toVec2 })
    ({ s with m_projects := projects, m_projects_data := data }, some true)

/-- The loop of the `Drop` branch of `App::processEvent` (lines 79-80); an exception of
`loadLDtkFile` leaves the loop. -/
def dropFiles (env : Env) : App → List String → Option App
  | s, [] => some s
  | s, file :: rest =>
    match (loadLDtkFile env s file).2 with
    | none => none
    | some _ => dropFiles env (loadLDtkFile env s file).1 rest

/-- `App::getActiveProject`. -/
def getActiveProject (s : App) : Option LDtkProject :=
  if s.m_selected_project = "" then some s.m_dummy_project
  else s.m_projects.find? s.m_selected_project

/-- `App::getActiveCamera`. -/
def getActiveCamera (s : App) : Option Camera2D :=
  (s.m_projects_data.find? s.m_selected_project).map (fun d => d.camera)

/-- `App::getActiveDepth`. -/
def getActiveDepth (s : App) : Option Int :=
  (s.m_projects_data.find? s.m_selected_project).map (fun d => d.depth)

/-- The depth computed by lines 106-109 of `App::processEvent` from the current depth, the
first key of the depth map and its size: `depth = current + 1 - depth_offset` in `int`, then
`(depth % size) + depth_offset` in `std::size_t`, stored into an `int`. -/
def cycledDepth (current depth_offset : Int) (size : Nat) : Int :=
  let depth := toInt32 (toInt32 (current + 1) - depth_offset)
  toInt32 (((toSizeT depth % size + toSizeT depth_offset) % 2 ^ 64 : Nat) : Int)

/-- The body of the right-button press branch of `App::processEvent` (lines 106-109). -/
def cycleDepth (s : App) : Option App :=
  match s.getActiveProject with
  | none => none
  | some project =>
    match project.worlds.head? with
    | none => none
    | some world =>
      match world.levels.head? with
      | none => none
      | some first =>
        match s.getActiveDepth with
        | none => none
        | some current =>
          some { s with
            m_projects_data := s.m_projects_data.adjust s.m_selected_project
              (fun d => { d with depth := cycledDepth current first.1 world.levels.length }) }

/-- `App::processEvent`, with the answers of `ImGui::GetIO()` passed in. -/
def processEvent (env : Env) (io : UiCapture) (s : App) : Event → Option App
  | .Resize width height =>
    some { s with
      m_projects_data := s.m_projects_data.mapValues
        (fun d => { d with camera := d.camera.setSize ⟨(width : ℚ), (height : ℚ)⟩ }) }
  | .Drop files =>
    dropFiles env s files
  | .Key key action =>
    if !io.WantCaptureKeyboard then
      if action = GLFW_PRESS then
        if key = GLFW_KEY_ESCAPE then
          some { s with m_window := { s.m_window with isOpen := false } }
        else some s
      else some s
    else some s
  | .MouseButton button action =>
    if !io.WantCaptureMouse then
      if button = GLFW_MOUSE_BUTTON_LEFT then
        if action = GLFW_PRESS then
          some { s with camera_grabbed := true, grab_pos := s.m_window.mousePosition }
        else if action = GLFW_RELEASE then
          some { s with camera_grabbed := false }
        else some s
      else if button = GLFW_MOUSE_BUTTON_RIGHT then
        if action = GLFW_PRESS then s.cycleDepth else some s
      else some s
    else some s
  | .MouseMove x y =>
    if s.camera_grabbed then
      match s.getActiveCamera with
      | none => none
      | some camera =>
        let dx := ((s.grab_pos.x - x : Int) : ℚ) / camera.getZoom
        let dy := ((s.grab_pos.y - y : Int) : ℚ) / camera.getZoom
        some { s with
          grab_pos := ⟨x, y⟩
          m_projects_data := s.m_projects_data.adjust s.m_selected_project
            (fun d => { d with camera := d.camera.move dx dy }) }
    else some s
  | .Scroll _ dy =>
    if !io.WantCaptureMouse then
      match s.getActiveCamera with
      | none => none
      | some _ =>
        if dy < 0 then
          some { s with
            m_projects_data := s.m_projects_data.adjust s.m_selected_project
              (fun d => { d with camera := d.camera.zoom (9 / 10) }) }
        else if dy > 0 then
          some { s with
            m_projects_data := s.m_projects_data.adjust s.m_selected_project
              (fun d => { d with camera := d.camera.zoom (11 / 10) }) }
        else some s
    else some s
  | .Other => some s

/-- The event loop body of `App::run` on a batch of events, each with the answers ImGui gives
when it is processed. -/
def processEvents (env : Env) : App → List (UiCapture × Event) → Option App
  | s, [] => some s
  | s, (io, event) :: rest =>
    match processEvent env io s event with
    | none => none
    | some s' => processEvents env s' rest

/-- What ImGui answers for one tab of the tab bar: whether `BeginTabItem` returned true (the
tab is the selected one) and the value it left in `*p_open` (false once the tab is closed). -/
structure TabAnswer where
  selected : Bool
  stillOpen : Bool
deriving DecidableEq

/-- The first loop of the tab bar in `App::renderImGui` (lines 175-183): the value of
`m_selected_project` after it. -/
def selectTabs (ui : String → TabAnswer) (s : App) : String :=
  s.m_projects.foldl (fun sel e => if (ui e.1).selected then e.1 else sel) s.m_selected_project

/-- The map `worlds_tabs` after the first loop of the tab bar (lines 175-183), one entry per
project. -/
def worldsTabs (ui : String → TabAnswer) (s : App) : StdMap Bool :=
  s.m_projects.map (fun e => (e.1, (ui e.1).stillOpen))

/-- The second loop of the tab bar in `App::renderImGui` (lines 184-190). -/
def closeTabs (s : App) (worlds_tabs : StdMap Bool) : App :=
  worlds_tabs.foldl
    (fun s e =>
      if !e.2 then
        { s with
          m_projects := s.m_projects.erase e.1
          m_projects_data := s.m_projects_data.erase e.1
          m_selected_project := "" }
      else s)
    s

/-- The tab-bar block of `App::renderImGui` (lines 168-193). -/
def renderTabBar (ui : String → TabAnswer) (s : App) : App :=
  closeTabs { s with m_selected_project := selectTabs ui s } (worldsTabs ui s)

end App

/-! ## The specification's wording, for comparison with the code -/

/-- The quantisation as the specification words it: `q(v) = floor(v * 1000) / 1000`. -/
def specQuantize (v : ℚ) : ℚ :=
  ((⌊v * 1000⌋ : Int) : ℚ) / 1000

/-- The specification's wording of the depth a right click selects: `n` is "the next larger
depth key present, or the minimum key when the current depth is the maximum". -/
def IsNextDepth (keys : List Int) (d n : Int) : Prop :=
  n ∈ keys ∧
  ((∃ k ∈ keys, d < k) → d < n ∧ ∀ k ∈ keys, d < k → n ≤ k) ∧
  ((∀ k ∈ keys, k ≤ d) → ∀ k ∈ keys, n ≤ k)

instance (keys : List Int) (d n : Int) : Decidable (IsNextDepth keys d n) := by
  unfold IsNextDepth
  infer_instance

/-- The depth formula as the specification words it:
`((current_depth + 1 - offset) mod count) + offset`. -/
def specCycle (offset : Int) (count : Nat) (d : Int) : Int :=
  (d + 1 - offset) % (count : Int) + offset

/-- Whether an integer is a value of the type `int` (32 bits). -/
def IsInt32 (z : Int) : Prop :=
  -2 ^ 31 ≤ z ∧ z < 2 ^ 31

instance (z : Int) : Decidable (IsInt32 z) := by
  unfold IsInt32
  infer_instance

/-- The event of pressing the secondary (right) mouse button. -/
def rightPress : Event :=
  .MouseButton GLFW_MOUSE_BUTTON_RIGHT GLFW_PRESS

/-- The event of releasing the primary (left) mouse button. -/
def leftRelease : Event :=
  .MouseButton GLFW_MOUSE_BUTTON_LEFT GLFW_RELEASE

/-- The keys `offset, offset + 1, ..., offset + count - 1`. -/
def contiguousKeys (offset : Int) (count : Nat) : List Int :=
  (List.range count).map (fun (i : Nat) => offset + (i : Int))

/-- Every camera of the per-project map has a positive zoom. -/
def AllZoomPositive (m : StdMap ProjectData) : Prop :=
  ∀ e ∈ m, 0 < e.2.camera.m_transform.z

instance (m : StdMap ProjectData) : Decidable (AllZoomPositive m) := by
  unfold AllZoomPositive
  infer_instance

/-- Every key of `m` is still a key of `m'`, its camera at the same zoom. -/
def ZoomKept (m m' : StdMap ProjectData) : Prop :=
  ∀ k d, m.find? k = some d →
    ∃ d', m'.find? k = some d' ∧ d'.camera.m_transform.z = d.camera.m_transform.z

/-! ## Concrete inputs -/

/-- A loader whose parse fails on every path: `load` leaves the project object as it was and
returns false. -/
def failingEnv : Env :=
  { load := fun _ p => (p, some false), defaultDepth := 0, defaultSize := ⟨0, 0⟩ }

/-- A loader whose parse fails on every path: `load` leaves the project object as it was and
throws. -/
def throwingEnv : Env :=
  { load := fun _ p => (p, none), defaultDepth := 0, defaultSize := ⟨0, 0⟩ }

/-- A project with one world whose depth map has the given keys (and no levels). -/
def projectWithDepths (keys : List Int) : LDtkProject :=
  { worlds := [{ levels := keys.map (fun k => (k, [])) }], bg_color := ⟨0, 0, 0⟩ }

/-- A controller with the single project `"p"` selected, whose first world has the given depth
keys, at the given active depth. -/
def appWithDepths (keys : List Int) (depth : Int) : App :=
  { m_window := { size := ⟨1280, 720⟩, mousePosition := ⟨0, 0⟩, isOpen := true }
    m_projects := [("p", projectWithDepths keys)]
    m_projects_data :=
      [("", ProjectData.init failingEnv),
       ("p", { camera := Camera2D.new ⟨1280, 720⟩, depth := depth })]
    m_selected_project := "p"
    m_dummy_project := LDtkProject.empty
    camera_grabbed := false
    grab_pos := ⟨0, 0⟩ }

/-- A controller with the projects `"A"` and `"B"` loaded and `"A"` active. -/
def appAB : App :=
  { (App.loadLDtkFile failingEnv (App.loadLDtkFile failingEnv (App.new failingEnv) "A").1 "B").1
    with m_selected_project := "A" }

/-- ImGui's answers for a frame in which the tab of `"A"` is closed and no tab is clicked. -/
def closeA (name : String) : App.TabAnswer :=
  { selected := false, stillOpen := decide (name ≠ "A") }

/-- A controller in the middle of a drag. -/
def appDragging : App :=
  { App.new failingEnv with camera_grabbed := true }

/-- A batch of events: a scroll down, a scroll up, and a scroll up while the UI wants the
mouse. -/
def scrollBatch : List (UiCapture × Event) :=
  [(⟨false, false⟩, .Scroll 0 (-1)), (⟨false, false⟩, .Scroll 0 1), (⟨false, true⟩, .Scroll 0 1)]

/-- The `float` `9126805 * 2^-29 = 0.016999999061226845...`, just below 0.017. -/
def belowStep : Float32 :=
  Float32.ofFrac 9126805 536870912

theorem Camera2D.pow_ten_three : Camera2D.pow 10 3 = 1000 := by
  simp [Camera2D.pow]

theorem Camera2D.round_three (v : ℚ) :
    Camera2D.round 3 v = ((⌊v * 1000⌋ : Int) : ℚ) / 1000 := by
  simp [Camera2D.round, Camera2D.pow_ten_three]

theorem CameraCall.replay_transform (calls : List CameraCall) (c : Camera2D) :
    (CameraCall.replay c calls).m_transform =
      ⟨c.m_transform.x - ((CameraCall.moves calls).map Prod.fst).sum,
       c.m_transform.y - ((CameraCall.moves calls).map Prod.snd).sum,
       c.m_transform.z * (CameraCall.zooms calls).prod⟩ ∧
    (CameraCall.replay c calls).m_size = c.m_size := by
  induction calls generalizing c with
  | nil => simp [CameraCall.replay, CameraCall.moves, CameraCall.zooms]
  | cons call rest ih =>
    have h := ih (CameraCall.apply c call)
    simp only [CameraCall.replay, List.foldl_cons] at h ⊢
    cases call with
    | move x y =>
      simp only [CameraCall.apply, Camera2D.move] at h ⊢
      refine ⟨?_, h.2⟩
      rw [h.1]
      simp only [CameraCall.moves, CameraCall.zooms, List.map_cons, List.sum_cons]
      congr 1 <;> ring
    | zoom z =>
      simp only [CameraCall.apply, Camera2D.zoom] at h ⊢
      refine ⟨?_, h.2⟩
      rw [h.1]
      simp only [CameraCall.moves, CameraCall.zooms, List.prod_cons]
      congr 1; ring

theorem CameraCall.replay_ext (c : Camera2D) (calls calls' : List CameraCall)
    (hm : CameraCall.moves calls' = CameraCall.moves calls)
    (hz : CameraCall.zooms calls' = CameraCall.zooms calls) :
    CameraCall.replay c calls' = CameraCall.replay c calls := by
  have h := CameraCall.replay_transform calls c
  have h' := CameraCall.replay_transform calls' c
  rw [hm, hz] at h'
  cases hr : CameraCall.replay c calls with
  | mk s t =>
    cases hr' : CameraCall.replay c calls' with
    | mk s' t' =>
      rw [hr] at h
      rw [hr'] at h'
      simp only at h h'
      rw [h.1, h.2, h'.1, h'.2]

/-! ## Properties of std::map -/

theorem StdMap.find?_erase {V : Type} (m : StdMap V) (k j : String) :
    (m.erase k).find? j = if j = k then none else m.find? j := by
  induction m with
  | nil => simp [StdMap.erase, StdMap.find?]
  | cons e rest ih =>
    obtain ⟨k', v⟩ := e
    simp only [StdMap.erase] at ih
    by_cases hk : k' = k
    · subst hk
      simp only [StdMap.erase, List.filter_cons, ne_eq, not_true_eq_false, decide_False,
        Bool.false_eq_true, ↓reduceIte, StdMap.find?]
      rw [ih]
      by_cases hj : j = k'
      · simp [hj]
      · simp [hj, Ne.symm hj]
    · simp only [StdMap.erase, List.filter_cons, ne_eq, hk, not_false_eq_true, decide_True,
        ↓reduceIte, StdMap.find?]
      rw [ih]
      by_cases hj : j = k
      · subst hj
        simp [hk]
      · simp [hj]

theorem StdMap.adjust_cons {V : Type} (k' : String) (v : V) (rest : StdMap V) (k : String)
    (f : V → V) :
    StdMap.adjust ((k', v) :: rest) k f =
      (if k' = k then (k', f v) else (k', v)) :: StdMap.adjust rest k f := by
  simp [StdMap.adjust]

theorem StdMap.find?_cons {V : Type} (k' : String) (v : V) (rest : StdMap V) (k : String) :
    StdMap.find? ((k', v) :: rest) k = if k' = k then some v else StdMap.find? rest k :=
  rfl

theorem StdMap.find?_adjust {V : Type} (m : StdMap V) (k j : String) (f : V → V) :
    (m.adjust k f).find? j = if j = k then (m.find? k).map f else m.find? j := by
  induction m with
  | nil => simp [StdMap.adjust, StdMap.find?]
  | cons e rest ih =>
    obtain ⟨k', v⟩ := e
    rw [StdMap.adjust_cons]
    by_cases hk : k' = k
    · subst hk
      rw [if_pos rfl, StdMap.find?_cons, StdMap.find?_cons, StdMap.find?_cons, ih]
      by_cases hj : j = k'
      · subst hj
        simp
      · simp [hj, Ne.symm hj]
    · rw [if_neg hk, StdMap.find?_cons, StdMap.find?_cons, StdMap.find?_cons, ih]
      by_cases hj : j = k
      · subst hj
        simp [hk]
      · simp [hj]

theorem StdMap.find?_mapValues {V : Type} (m : StdMap V) (j : String) (f : V → V) :
    (m.mapValues f).find? j = (m.find? j).map f := by
  induction m with
  | nil => simp [StdMap.mapValues, StdMap.find?]
  | cons e rest ih =>
    obtain ⟨k', v⟩ := e
    simp only [StdMap.mapValues] at ih
    simp only [StdMap.mapValues, List.map_cons, StdMap.find?]
    rw [ih]
    by_cases hj : k' = j <;> simp [hj]

theorem StdMap.find?_insertNew {V : Type} (m : StdMap V) (k j : String) (v : V)
    (h : m.find? k = none) :
    (m.insertNew k v).find? j = if j = k then some v else m.find? j := by
  induction m with
  | nil =>
    by_cases hj : j = k
    · simp [StdMap.insertNew, StdMap.find?, hj]
    · simp [StdMap.insertNew, StdMap.find?, hj, Ne.symm hj]
  | cons e rest ih =>
    obtain ⟨k', v'⟩ := e
    simp only [StdMap.find?] at h
    by_cases hk : k' = k
    · simp [hk] at h
    · simp only [hk, ↓reduceIte] at h
      simp only [StdMap.insertNew]
      by_cases hlt : k.data < k'.data
      · simp only [hlt, ↓reduceIte, StdMap.find?]
        by_cases hj : j = k
        · simp [hj]
        · simp [hj, Ne.symm hj]
      · simp only [hlt, ↓reduceIte, StdMap.find?]
        rw [ih h]
        by_cases hj : j = k
        · subst hj
          simp [hk]
        · simp [hj]

theorem StdMap.find?_insert {V : Type} (m : StdMap V) (k j : String) (v : V) :
    (m.insert k v).find? j = if j = k then some ((m.find? k).getD v) else m.find? j := by
  unfold StdMap.insert StdMap.contains
  cases h : m.find? k with
  | none =>
    simp only [Option.isSome_none, Bool.false_eq_true, ↓reduceIte, Option.getD_none]
    exact StdMap.find?_insertNew m k j v h
  | some x =>
    simp only [Option.isSome_some, ↓reduceIte, Option.getD_some]
    by_cases hj : j = k
    · subst hj
      simp [h]
    · simp [hj]

/-! ## Properties of the binary32 camera -/

set_option maxRecDepth 8000

theorem Binary32.CameraCall.replay_transform32 (calls : List Binary32.CameraCall)
    (c : Binary32.Camera2D) :
    (Binary32.CameraCall.replay c calls).m_transform =
      ⟨((Binary32.CameraCall.moves calls).map Prod.fst).foldl Float32.sub c.m_transform.x,
       ((Binary32.CameraCall.moves calls).map Prod.snd).foldl Float32.sub c.m_transform.y,
       (Binary32.CameraCall.zooms calls).foldl Float32.mul c.m_transform.z⟩ ∧
    (Binary32.CameraCall.replay c calls).m_size = c.m_size := by
  induction calls generalizing c with
  | nil => exact ⟨rfl, rfl⟩
  | cons call rest ih =>
    have h := ih (Binary32.CameraCall.apply c call)
    simp only [Binary32.CameraCall.replay, List.foldl_cons] at h ⊢
    cases call with
    | move x y => exact ⟨h.1, h.2⟩
    | zoom z => exact ⟨h.1, h.2⟩

theorem Binary32.CameraCall.replay_ext32 (c : Binary32.Camera2D)
    (calls calls' : List Binary32.CameraCall)
    (hm : Binary32.CameraCall.moves calls' = Binary32.CameraCall.moves calls)
    (hz : Binary32.CameraCall.zooms calls' = Binary32.CameraCall.zooms calls) :
    Binary32.CameraCall.replay c calls' = Binary32.CameraCall.replay c calls := by
  have h := Binary32.CameraCall.replay_transform32 calls c
  have h' := Binary32.CameraCall.replay_transform32 calls' c
  rw [hm, hz] at h'
  cases hr : Binary32.CameraCall.replay c calls with
  | mk s t =>
    cases hr' : Binary32.CameraCall.replay c calls' with
    | mk s' t' =>
      rw [hr] at h
      rw [hr'] at h'
      simp only at h h'
      rw [h.1, h.2, h'.1, h'.2]

/-! ## The camera claims -/

theorem specQuantize_eq_round (v : ℚ) : specQuantize v = Camera2D.round 3 v := by
  rw [Camera2D.round_three, specQuantize]

/-- C7, as the code has it. In exact arithmetic, for a camera with non-zero size components
whose transform is `(0, 0, 1)`: after every sequence of `move` and `zoom` calls the transform
is `(-Σ dx, -Σ dy, Π f)` and the size is unchanged; two sequences that interleave the same
moves and the same zooms give the same camera; `move` leaves zoom and size, `zoom` leaves
`tx`, `ty` and size; and `getTransform` returns that triple divided by `(size.x, size.y, 1)`
and quantised to 3 decimals by floor. In binary32: the transform is
`(((0 - dx_1) - dx_2) - ..., ((0 - dy_1) - dy_2) - ..., ((1 * f_1) * f_2) * ...)` computed in
`float` in call order, the size is unchanged, two such interleavings give the same camera, and
`getTransform` returns `round<3>` of these components divided by the size. -/
theorem C7_replay_closed_form (c : Camera2D) (calls : List CameraCall)
    (h0 : c.m_transform = ⟨0, 0, 1⟩) (hx : c.m_size.x ≠ 0) (hy : c.m_size.y ≠ 0) :
    (CameraCall.replay c calls).m_transform =
        ⟨-((CameraCall.moves calls).map Prod.fst).sum,
         -((CameraCall.moves calls).map Prod.snd).sum,
         (CameraCall.zooms calls).prod⟩ ∧
    (CameraCall.replay c calls).m_size = c.m_size ∧
    (∀ calls' : List CameraCall,
      CameraCall.moves calls' = CameraCall.moves calls →
      CameraCall.zooms calls' = CameraCall.zooms calls →
      CameraCall.replay c calls' = CameraCall.replay c calls) ∧
    (∀ (k : Camera2D) (x y : ℚ),
      (k.move x y).m_transform.z = k.m_transform.z ∧ (k.move x y).m_size = k.m_size) ∧
    (∀ (k : Camera2D) (z : ℚ),
      (k.zoom z).m_transform.x = k.m_transform.x ∧
      (k.zoom z).m_transform.y = k.m_transform.y ∧ (k.zoom z).m_size = k.m_size) ∧
    (CameraCall.replay c calls).getTransform =
        some
          ⟨specQuantize (-((CameraCall.moves calls).map Prod.fst).sum / c.m_size.x),
           specQuantize (-((CameraCall.moves calls).map Prod.snd).sum / c.m_size.y),
           specQuantize (CameraCall.zooms calls).prod⟩ ∧
    (∀ (b : Binary32.Camera2D) (bcalls : List Binary32.CameraCall),
      b.m_transform = ⟨Float32.ofInt 0, Float32.ofInt 0, Float32.ofInt 1⟩ →
      (Binary32.CameraCall.replay b bcalls).m_transform =
          ⟨((Binary32.CameraCall.moves bcalls).map Prod.fst).foldl Float32.sub
             (Float32.ofInt 0),
           ((Binary32.CameraCall.moves bcalls).map Prod.snd).foldl Float32.sub
             (Float32.ofInt 0),
           (Binary32.CameraCall.zooms bcalls).foldl Float32.mul (Float32.ofInt 1)⟩ ∧
      (Binary32.CameraCall.replay b bcalls).m_size = b.m_size ∧
      (∀ bcalls' : List Binary32.CameraCall,
        Binary32.CameraCall.moves bcalls' = Binary32.CameraCall.moves bcalls →
        Binary32.CameraCall.zooms bcalls' = Binary32.CameraCall.zooms bcalls →
        Binary32.CameraCall.replay b bcalls' = Binary32.CameraCall.replay b bcalls) ∧
      (Binary32.CameraCall.replay b bcalls).getTransform =
          ⟨Binary32.Camera2D.round 3
             (Float32.div
               (((Binary32.CameraCall.moves bcalls).map Prod.fst).foldl Float32.sub
                 (Float32.ofInt 0))
               b.m_size.x),
           Binary32.Camera2D.round 3
             (Float32.div
               (((Binary32.CameraCall.moves bcalls).map Prod.snd).foldl Float32.sub
                 (Float32.ofInt 0))
               b.m_size.y),
           Binary32.Camera2D.round 3
             ((Binary32.CameraCall.zooms bcalls).foldl Float32.mul (Float32.ofInt 1))⟩) := by
  have h := CameraCall.replay_transform calls c
  rw [h0] at h
  simp only [zero_sub, one_mul] at h
  refine ⟨h.1, h.2, ?_, ?_, ?_, ?_, ?_⟩
  · intro calls' hm hz
    exact CameraCall.replay_ext c calls calls' hm hz
  · intro k x y
    exact ⟨rfl, rfl⟩
  · intro k z
    exact ⟨rfl, rfl, rfl⟩
  · simp only [Camera2D.getTransform, h.1, h.2, hx, hy, or_self, ↓reduceIte,
      specQuantize_eq_round]
  · intro b bcalls hb
    have hb32 := Binary32.CameraCall.replay_transform32 bcalls b
    rw [hb] at hb32
    refine ⟨hb32.1, hb32.2, ?_, ?_⟩
    · intro bcalls' hm hz
      exact Binary32.CameraCall.replay_ext32 b bcalls bcalls' hm hz
    · simp only [Binary32.Camera2D.getTransform, hb32.1, hb32.2]

/-- C7, at `move(3, 4); zoom(2); move(1, 1)` from the initial camera of size `(10, 10)`: the
transform is `(-4, -5, 2)`. -/
theorem C7_replay_closed_form_witness :
    (Camera2D.new ⟨10, 10⟩).m_size.x ≠ 0 ∧ (Camera2D.new ⟨10, 10⟩).m_size.y ≠ 0 ∧
    (CameraCall.replay (Camera2D.new ⟨10, 10⟩)
      [CameraCall.move 3 4, CameraCall.zoom 2, CameraCall.move 1 1]).m_transform =
      ⟨-4, -5, 2⟩ := by
  have hx : (Camera2D.new ⟨10, 10⟩).m_size.x ≠ 0 := by simp [Camera2D.new]
  have hy : (Camera2D.new ⟨10, 10⟩).m_size.y ≠ 0 := by simp [Camera2D.new]
  have h := (C7_replay_closed_form (Camera2D.new ⟨10, 10⟩)
    [CameraCall.move 3 4, CameraCall.zoom 2, CameraCall.move 1 1] rfl hx hy).1
  refine ⟨hx, hy, ?_⟩
  rw [h]
  norm_num [CameraCall.moves, CameraCall.zooms]

/-- C7 as stated fails on the `float` arithmetic of the code. From the initial camera of size
1280 x 720, the single call `zoom(f)` with the `float` `f = 9126805 * 2^-29` leaves the zoom at
`f`, the product, and `getTransform` returns `0.017f` for it, while `f` quantised to 3 decimals
by floor is 0.016. The single call `move(2592, 0)` leaves `tx = -2592`, and `getTransform`
returns `-2.026f` for it, while `-2592 / 1280` quantised to 3 decimals is -2.025. -/
theorem C7_binary32_replay_differs_from_closed_form :
    (Binary32.CameraCall.replay (Binary32.Camera2D.new ⟨Float32.ofInt 1280, Float32.ofInt 720⟩)
      [Binary32.CameraCall.zoom belowStep]).m_transform.z = belowStep ∧
    (Binary32.CameraCall.replay (Binary32.Camera2D.new ⟨Float32.ofInt 1280, Float32.ofInt 720⟩)
      [Binary32.CameraCall.zoom belowStep]).getTransform.z = Float32.ofFrac 17 1000 ∧
    Float32.toRat belowStep = 9126805 / 536870912 ∧
    specQuantize (9126805 / 536870912) = 16 / 1000 ∧
    Float32.ofFrac 17 1000 ≠ Float32.ofFrac 16 1000 ∧
    (Binary32.CameraCall.replay (Binary32.Camera2D.new ⟨Float32.ofInt 1280, Float32.ofInt 720⟩)
      [Binary32.CameraCall.move (Float32.ofInt 2592) (Float32.ofInt 0)]).m_transform.x =
        Float32.ofInt (-2592) ∧
    (Binary32.CameraCall.replay (Binary32.Camera2D.new ⟨Float32.ofInt 1280, Float32.ofInt 720⟩)
      [Binary32.CameraCall.move (Float32.ofInt 2592) (Float32.ofInt 0)]).getTransform.x =
        Float32.ofFrac (-2026) 1000 ∧
    specQuantize (-(2592 : ℚ) / 1280) = -2025 / 1000 ∧
    Float32.ofFrac (-2026) 1000 ≠ Float32.ofFrac (-2025) 1000 := by
  have hbelow : belowStep = Float32.fin false 9126805 (-29) := by decide
  refine ⟨by decide, by decide, ?_, ?_, by decide, by decide, by decide, ?_, by decide⟩
  · rw [hbelow]
    norm_num [Float32.toRat]
  · unfold specQuantize
    have hfloor : ⌊(9126805 / 536870912 * 1000 : ℚ)⌋ = 16 := by
      rw [Int.floor_eq_iff]
      constructor <;> norm_num
    rw [hfloor]
    norm_num
  · unfold specQuantize
    have hfloor : ⌊(-(2592 : ℚ) / 1280 * 1000 : ℚ)⌋ = -2025 := by
      rw [Int.floor_eq_iff]
      constructor <;> norm_num
    rw [hfloor]
    norm_num

/-- C8: `centerOn(x, y)` sets `tx = -x` and `ty = -y` whatever the camera was and leaves zoom
and size; doing it twice is the same as doing it once; and `centerOn(5, 5)` after
`move(100, 100)` gives `tx = -5`. -/
theorem C8_centerOn_absolute_idempotent (c : Camera2D) (x y : ℚ) :
    (c.centerOn x y).m_transform.x = -x ∧
    (c.centerOn x y).m_transform.y = -y ∧
    (c.centerOn x y).m_transform.z = c.m_transform.z ∧
    (c.centerOn x y).m_size = c.m_size ∧
    (c.centerOn x y).centerOn x y = c.centerOn x y ∧
    ((c.move 100 100).centerOn 5 5).m_transform.x = -5 :=
  ⟨rfl, rfl, rfl, rfl, rfl, rfl⟩

/-! ## The tab bar -/

theorem App.closeTabs_cons (s : App) (e : String × Bool) (rest : StdMap Bool) :
    App.closeTabs s (e :: rest) =
      App.closeTabs
        (if !e.2 then
          { s with
            m_projects := s.m_projects.erase e.1
            m_projects_data := s.m_projects_data.erase e.1
            m_selected_project := "" }
        else s) rest := by
  simp [App.closeTabs]

theorem App.closeTabs_keeps_absent (j : String) (tabs : StdMap Bool) (s : App) :
    (s.m_projects.find? j = none → (App.closeTabs s tabs).m_projects.find? j = none) ∧
    (s.m_projects_data.find? j = none →
      (App.closeTabs s tabs).m_projects_data.find? j = none) ∧
    (s.m_selected_project = "" → (App.closeTabs s tabs).m_selected_project = "") := by
  induction tabs generalizing s with
  | nil => simp [App.closeTabs]
  | cons e rest ih =>
    rw [App.closeTabs_cons]
    cases he : e.2 with
    | true =>
      simp only [Bool.not_true, Bool.false_eq_true, ↓reduceIte]
      exact ih s
    | false =>
      simp only [Bool.not_false, ↓reduceIte]
      refine ⟨fun h => (ih _).1 ?_, fun h => (ih _).2.1 ?_, fun _ => (ih _).2.2 rfl⟩
      · show (s.m_projects.erase e.1).find? j = none
        rw [StdMap.find?_erase, h]
        simp
      · show (s.m_projects_data.erase e.1).find? j = none
        rw [StdMap.find?_erase, h]
        simp

theorem App.closeTabs_closed (j : String) (tabs : StdMap Bool) (s : App)
    (h : ∃ e ∈ tabs, e.1 = j ∧ e.2 = false) :
    (App.closeTabs s tabs).m_projects.find? j = none ∧
    (App.closeTabs s tabs).m_projects_data.find? j = none ∧
    (App.closeTabs s tabs).m_selected_project = "" := by
  induction tabs generalizing s with
  | nil => simp at h
  | cons e rest ih =>
    rw [App.closeTabs_cons]
    obtain ⟨e', hmem, hkey, hopen⟩ := h
    rcases List.mem_cons.mp hmem with heq | hrest
    · subst heq
      simp only [hopen, Bool.not_false, ↓reduceIte]
      refine ⟨(App.closeTabs_keeps_absent j rest _).1 ?_,
        (App.closeTabs_keeps_absent j rest _).2.1 ?_,
        (App.closeTabs_keeps_absent j rest _).2.2 rfl⟩
      · show (s.m_projects.erase e'.1).find? j = none
        rw [StdMap.find?_erase]
        simp [hkey]
      · show (s.m_projects_data.erase e'.1).find? j = none
        rw [StdMap.find?_erase]
        simp [hkey]
    · exact ih _ ⟨e', hrest, hkey, hopen⟩

theorem App.closeTabs_frame (j : String) (tabs : StdMap Bool) (s : App)
    (h : ∀ e ∈ tabs, e.1 = j → e.2 = true) :
    (App.closeTabs s tabs).m_projects.find? j = s.m_projects.find? j ∧
    (App.closeTabs s tabs).m_projects_data.find? j = s.m_projects_data.find? j := by
  induction tabs generalizing s with
  | nil => simp [App.closeTabs]
  | cons e rest ih =>
    rw [App.closeTabs_cons]
    have hrest : ∀ e' ∈ rest, e'.1 = j → e'.2 = true :=
      fun e' he' => h e' (List.mem_cons_of_mem _ he')
    cases he : e.2 with
    | true =>
      simp only [Bool.not_true, Bool.false_eq_true, ↓reduceIte]
      exact ih s hrest
    | false =>
      simp only [Bool.not_false, ↓reduceIte]
      have hne : ¬ j = e.1 := by
        intro hje
        have := h e (List.mem_cons_self _ _) hje.symm
        rw [he] at this
        exact Bool.false_ne_true this
      have h1 := ih
        { s with
          m_projects := s.m_projects.erase e.1
          m_projects_data := s.m_projects_data.erase e.1
          m_selected_project := "" } hrest
      rw [h1.1, h1.2]
      constructor
      · show (s.m_projects.erase e.1).find? j = _
        rw [StdMap.find?_erase, if_neg hne]
      · show (s.m_projects_data.erase e.1).find? j = _
        rw [StdMap.find?_erase, if_neg hne]

theorem StdMap.mem_of_find?_isSome {V : Type} (m : StdMap V) (k : String)
    (h : (m.find? k).isSome = true) : ∃ e ∈ m, e.1 = k := by
  induction m with
  | nil => simp [StdMap.find?] at h
  | cons e rest ih =>
    obtain ⟨k', v⟩ := e
    rw [StdMap.find?_cons] at h
    by_cases hk : k' = k
    · exact ⟨(k', v), List.mem_cons_self _ _, hk⟩
    · rw [if_neg hk] at h
      obtain ⟨e, he, hek⟩ := ih h
      exact ⟨e, List.mem_cons_of_mem _ he, hek⟩

theorem StdMap.find?_isSome_of_mem {V : Type} (m : StdMap V) (e : String × V) (h : e ∈ m) :
    (m.find? e.1).isSome = true := by
  induction m with
  | nil => simp at h
  | cons e' rest ih =>
    obtain ⟨k', v⟩ := e'
    rw [StdMap.find?_cons]
    by_cases hk : k' = e.1
    · simp [hk]
    · rw [if_neg hk]
      rcases List.mem_cons.mp h with heq | hrest
      · subst heq
        exact absurd rfl hk
      · exact ih hrest

/-! ## The controller claims -/

/-- C1, as the code has it: while a drag is active, a left-button RELEASE event ends the drag
when the UI does not want the mouse, and is ignored (the state, drag included, is unchanged)
when the UI wants the mouse. -/
theorem C1_release_stops_drag_unless_ui_wants_mouse (env : Env) (io : UiCapture) (s : App)
    (h : s.camera_grabbed = true) :
    (io.WantCaptureMouse = false →
      App.processEvent env io s leftRelease = some { s with camera_grabbed := false }) ∧
    (io.WantCaptureMouse = true →
      App.processEvent env io s leftRelease = some s ∧ s.camera_grabbed = true) := by
  constructor
  · intro hio
    simp [App.processEvent, leftRelease, hio, GLFW_MOUSE_BUTTON_LEFT, GLFW_RELEASE, GLFW_PRESS]
  · intro hio
    simp [App.processEvent, leftRelease, hio, h]

/-- C1, at a controller in the middle of a drag with the UI not wanting the mouse: the release
ends the drag. -/
theorem C1_release_stops_drag_unless_ui_wants_mouse_witness :
    appDragging.camera_grabbed = true ∧
      App.processEvent failingEnv ⟨false, false⟩ appDragging leftRelease =
        some { appDragging with camera_grabbed := false } :=
  ⟨rfl, (C1_release_stops_drag_unless_ui_wants_mouse failingEnv ⟨false, false⟩ appDragging
    rfl).1 rfl⟩

/-- C1 as stated fails: with a drag active and the UI wanting the mouse, the left-button
release leaves `camera_grabbed = true`. -/
theorem C1_release_ignored_when_ui_wants_mouse :
    appDragging.camera_grabbed = true ∧
      (App.processEvent failingEnv ⟨false, true⟩ appDragging leftRelease).map
        (fun s => s.camera_grabbed) = some true :=
  ⟨rfl, rfl⟩

/-- C9: a `Resize(w, h)` event is always handled, whatever the UI flags; afterwards every
camera of the per-project map has size `(w, h)`, while the keys of the map, every camera's
transform, every project's depth, the loaded projects, the active-project key, the dragging
flag and the grab position are unchanged. -/
theorem C9_resize_sets_every_camera_size (env : Env) (io : UiCapture) (s : App)
    (w h : Int) :
    ∃ s', App.processEvent env io s (.Resize w h) = some s' ∧
      (∀ e ∈ s'.m_projects_data, e.2.camera.m_size = ⟨(w : ℚ), (h : ℚ)⟩) ∧
      s'.m_projects_data.map (fun e => (e.1, e.2.camera.m_transform, e.2.depth)) =
        s.m_projects_data.map (fun e => (e.1, e.2.camera.m_transform, e.2.depth)) ∧
      s'.m_projects = s.m_projects ∧
      s'.m_selected_project = s.m_selected_project ∧
      s'.camera_grabbed = s.camera_grabbed ∧
      s'.grab_pos = s.grab_pos := by
  refine ⟨_, rfl, ?_, ?_, rfl, rfl, rfl, rfl⟩
  · intro e he
    simp only [StdMap.mapValues, List.mem_map] at he
    obtain ⟨a, _, rfl⟩ := he
    rfl
  · simp [StdMap.mapValues, Camera2D.setSize]

theorem App.loadLDtkFile_projects (env : Env) (s : App) (path : String) :
    (App.loadLDtkFile env s path).1.m_projects =
      (s.m_projects.insert path LDtkProject.empty).adjust path
        (fun _ => (env.load path ((s.m_projects.find? path).getD LDtkProject.empty)).1) ∧
    (App.loadLDtkFile env s path).1.m_selected_project = s.m_selected_project ∧
    (App.loadLDtkFile env s path).1.camera_grabbed = s.camera_grabbed := by
  have hfind : ((s.m_projects.insert path LDtkProject.empty).find? path).getD LDtkProject.empty
      = (s.m_projects.find? path).getD LDtkProject.empty := by
    rw [StdMap.find?_insert, if_pos rfl]
    rfl
  unfold App.loadLDtkFile
  simp only [hfind]
  cases (env.load path ((s.m_projects.find? path).getD LDtkProject.empty)).2 with
  | none => exact ⟨rfl, rfl, rfl⟩
  | some ok => exact ⟨rfl, rfl, rfl⟩

theorem App.loadLDtkFile_data (env : Env) (s : App) (path : String) :
    ((env.load path ((s.m_projects.find? path).getD LDtkProject.empty)).2 = none →
      (App.loadLDtkFile env s path).2 = none ∧
      (App.loadLDtkFile env s path).1.m_projects_data = s.m_projects_data) ∧
    (∀ ok, (env.load path ((s.m_projects.find? path).getD LDtkProject.empty)).2 = some ok →
      (App.loadLDtkFile env s path).2 = some true ∧
      (App.loadLDtkFile env s path).1.m_projects_data =
        (s.m_projects_data.insert path (ProjectData.init env)).adjust path
          (fun d => { d with camera := d.camera.setSize s.m_window.size.toVec2 })) := by
  have hfind : ((s.m_projects.insert path LDtkProject.empty).find? path).getD LDtkProject.empty
      = (s.m_projects.find? path).getD LDtkProject.empty := by
    rw [StdMap.find?_insert, if_pos rfl]
    rfl
  unfold App.loadLDtkFile
  simp only [hfind]
  constructor
  · intro h
    rw [h]
    exact ⟨rfl, rfl⟩
  · intro ok h
    rw [h]
    exact ⟨rfl, rfl⟩

/-- C4, as the code has it: `loadLDtkFile` first gives the path an entry in the project map
(the one already there, else a fresh one) and calls `load` on it. If `load` returns, whatever
it returns and so whether or not the parse succeeded, the path gets an entry in the
per-project map (the data already there, else fresh data) with its camera sized to the window,
and the call returns `true`. If `load` throws, the exception leaves the function with the
project-map entry in place and the per-project map as it was. In both cases the entries of
every other key, the active key and the dragging flag are unchanged. -/
theorem C4_load_inserts_whatever_the_parse_result (env : Env) (s : App) (path : String) :
    (App.loadLDtkFile env s path).1.m_projects.find? path =
      some (env.load path ((s.m_projects.find? path).getD LDtkProject.empty)).1 ∧
    (∀ ok, (env.load path ((s.m_projects.find? path).getD LDtkProject.empty)).2 = some ok →
      (App.loadLDtkFile env s path).2 = some true ∧
      (App.loadLDtkFile env s path).1.m_projects_data.find? path =
        some
          { camera :=
              (((s.m_projects_data.find? path).getD (ProjectData.init env)).camera).setSize
                s.m_window.size.toVec2
            depth := ((s.m_projects_data.find? path).getD (ProjectData.init env)).depth }) ∧
    ((env.load path ((s.m_projects.find? path).getD LDtkProject.empty)).2 = none →
      (App.loadLDtkFile env s path).2 = none ∧
      (App.loadLDtkFile env s path).1.m_projects_data = s.m_projects_data) ∧
    (∀ j, j ≠ path →
      (App.loadLDtkFile env s path).1.m_projects.find? j = s.m_projects.find? j ∧
      (App.loadLDtkFile env s path).1.m_projects_data.find? j = s.m_projects_data.find? j) ∧
    (App.loadLDtkFile env s path).1.m_selected_project = s.m_selected_project ∧
    (App.loadLDtkFile env s path).1.camera_grabbed = s.camera_grabbed := by
  obtain ⟨hp, hsel, hgrab⟩ := App.loadLDtkFile_projects env s path
  obtain ⟨hthrow, hret⟩ := App.loadLDtkFile_data env s path
  refine ⟨?_, ?_, hthrow, ?_, hsel, hgrab⟩
  · rw [hp]
    simp [StdMap.find?_adjust, StdMap.find?_insert]
  · intro ok hok
    refine ⟨(hret ok hok).1, ?_⟩
    rw [(hret ok hok).2]
    simp [StdMap.find?_adjust, StdMap.find?_insert]
  · intro j hj
    constructor
    · rw [hp]
      simp [StdMap.find?_adjust, StdMap.find?_insert, hj]
    · cases hl : (env.load path ((s.m_projects.find? path).getD LDtkProject.empty)).2 with
      | none => rw [(hthrow hl).2]
      | some ok =>
        rw [(hret ok hl).2]
        simp [StdMap.find?_adjust, StdMap.find?_insert, hj]

/-- C4 as stated fails. With a loader whose parse fails on `"bad.ldtk"` by returning false,
`loadLDtkFile` on the freshly constructed controller returns `true` and leaves an entry for the
path in the project map and in the per-project map, neither of which had one. With a loader
that fails by throwing, the call throws and still leaves the entry in the project map. -/
theorem C4_failed_load_inserts_session :
    (failingEnv.load "bad.ldtk" LDtkProject.empty).2 = some false ∧
    (App.new failingEnv).m_projects.find? "bad.ldtk" = none ∧
    (App.new failingEnv).m_projects_data.find? "bad.ldtk" = none ∧
    (App.loadLDtkFile failingEnv (App.new failingEnv) "bad.ldtk").2 = some true ∧
    ((App.loadLDtkFile failingEnv (App.new failingEnv) "bad.ldtk").1.m_projects.find?
      "bad.ldtk").isSome = true ∧
    ((App.loadLDtkFile failingEnv (App.new failingEnv) "bad.ldtk").1.m_projects_data.find?
      "bad.ldtk").isSome = true ∧
    (throwingEnv.load "bad.ldtk" LDtkProject.empty).2 = none ∧
    (App.new throwingEnv).m_projects.find? "bad.ldtk" = none ∧
    (App.loadLDtkFile throwingEnv (App.new throwingEnv) "bad.ldtk").2 = none ∧
    ((App.loadLDtkFile throwingEnv (App.new throwingEnv) "bad.ldtk").1.m_projects.find?
      "bad.ldtk").isSome = true := by
  refine ⟨rfl, rfl, by decide, rfl, by decide, by decide, rfl, rfl, rfl, by decide⟩

/-- C5: when the tab of a loaded project `k` is closed in the tab bar, after the tab-bar
step `k` is in neither the project map nor the per-project map; every key whose tab was not
closed keeps its project and its data (camera and depth); the active key is empty (so it is
empty if `k` was the active project); and the active key is empty or a key of a loaded
project. -/
theorem C5_unload_clears_active_and_keeps_others (ui : String → App.TabAnswer) (s : App)
    (k : String) (hk : (s.m_projects.find? k).isSome = true)
    (hclosed : (ui k).stillOpen = false) :
    (App.renderTabBar ui s).m_projects.find? k = none ∧
    (App.renderTabBar ui s).m_projects_data.find? k = none ∧
    (∀ j, ((s.m_projects.find? j).isSome = true → (ui j).stillOpen = true) →
      (App.renderTabBar ui s).m_projects.find? j = s.m_projects.find? j ∧
      (App.renderTabBar ui s).m_projects_data.find? j = s.m_projects_data.find? j) ∧
    (s.m_selected_project = k → (App.renderTabBar ui s).m_selected_project = "") ∧
    ((App.renderTabBar ui s).m_selected_project = "" ∨
      ((App.renderTabBar ui s).m_projects.find?
        (App.renderTabBar ui s).m_selected_project).isSome = true) := by
  have hmem : ∃ e ∈ App.worldsTabs ui s, e.1 = k ∧ e.2 = false := by
    obtain ⟨e, he, hek⟩ := StdMap.mem_of_find?_isSome _ _ hk
    refine ⟨(e.1, (ui e.1).stillOpen), ?_, hek, ?_⟩
    · exact List.mem_map.mpr ⟨e, he, rfl⟩
    · show (ui e.1).stillOpen = false
      rw [hek]
      exact hclosed
  have hc := App.closeTabs_closed k (App.worldsTabs ui s)
    { s with m_selected_project := App.selectTabs ui s } hmem
  refine ⟨hc.1, hc.2.1, ?_, fun _ => hc.2.2, Or.inl hc.2.2⟩
  intro j hj
  refine App.closeTabs_frame j (App.worldsTabs ui s)
    { s with m_selected_project := App.selectTabs ui s } ?_
  intro e he hej
  obtain ⟨a, ha, rfl⟩ := List.mem_map.mp he
  have hsome := StdMap.find?_isSome_of_mem _ a ha
  show (ui a.1).stillOpen = true
  have haj : a.1 = j := hej
  rw [haj] at hsome ⊢
  exact hj hsome

/-- C5, at the controller with `"A"` and `"B"` loaded and `"A"` active, when the tab of `"A"`
is closed: the active key becomes empty, `"A"` is gone, and `"B"` keeps its project and data. -/
theorem C5_unload_clears_active_and_keeps_others_witness :
    (appAB.m_projects.find? "A").isSome = true ∧ (closeA "A").stillOpen = false ∧
    appAB.m_selected_project = "A" ∧
    (App.renderTabBar closeA appAB).m_selected_project = "" ∧
    (App.renderTabBar closeA appAB).m_projects.find? "A" = none ∧
    (App.renderTabBar closeA appAB).m_projects.find? "B" = appAB.m_projects.find? "B" ∧
    (App.renderTabBar closeA appAB).m_projects_data.find? "B" =
      appAB.m_projects_data.find? "B" ∧
    (appAB.m_projects.find? "B").isSome = true :=
  have h := C5_unload_clears_active_and_keeps_others closeA appAB "A" (by decide) (by decide)
  ⟨by decide, by decide, rfl, h.2.2.2.1 rfl, h.1,
   (h.2.2.1 "B" (fun _ => by decide)).1, (h.2.2.1 "B" (fun _ => by decide)).2, by decide⟩

/-! ## The depth cycle -/

theorem toSizeT_cast (z : Int) : ((toSizeT z : Nat) : Int) = z % 2 ^ 64 := by
  unfold toSizeT
  exact Int.toNat_of_nonneg (Int.emod_nonneg _ (by norm_num))

theorem App.cycledDepth_eq_specCycle (d offset : Int) (count : Nat)
    (ho : IsInt32 offset) (hge : offset ≤ d)
    (hov : d + 1 - offset < 2 ^ 31) (hc : 0 < count)
    (hmax : offset + (count : Int) - 1 < 2 ^ 31) :
    App.cycledDepth d offset count = specCycle offset count d := by
  unfold IsInt32 at ho
  have h1 : toInt32 (toInt32 (d + 1) - offset) = d + 1 - offset := by
    unfold toInt32
    omega
  unfold App.cycledDepth specCycle
  simp only [h1]
  push_cast
  rw [toSizeT_cast, toSizeT_cast]
  have hD : (d + 1 - offset) % 2 ^ 64 = d + 1 - offset := by omega
  rw [hD]
  have hcpos : (0 : Int) < (count : Int) := by exact_mod_cast hc
  have hr0 := Int.emod_nonneg (d + 1 - offset) (ne_of_gt hcpos)
  have hr1 := Int.emod_lt_of_pos (d + 1 - offset) hcpos
  generalize (d + 1 - offset) % (count : Int) = r at hr0 hr1 ⊢
  unfold toInt32
  omega

theorem specCycle_range (d offset : Int) (count : Nat) (hc : 0 < count) :
    offset ≤ specCycle offset count d ∧ specCycle offset count d ≤ offset + (count : Int) - 1 := by
  have hcpos : (0 : Int) < (count : Int) := by exact_mod_cast hc
  have hr0 := Int.emod_nonneg (d + 1 - offset) (ne_of_gt hcpos)
  have hr1 := Int.emod_lt_of_pos (d + 1 - offset) hcpos
  unfold specCycle
  omega

theorem sorted_keys_bound (keys : List Int) (a : Int) (rest : List Int)
    (hkeys : keys = a :: rest) (hsorted : keys.Pairwise (· < ·)) (b : Int)
    (hb : ∀ k ∈ keys, k < b) : a + (keys.length : Int) - 1 < b := by
  induction keys generalizing a rest with
  | nil => simp at hkeys
  | cons x xs ih =>
    injection hkeys with hx hxs
    subst hx hxs
    cases xs with
    | nil =>
      have := hb x (List.mem_cons_self _ _)
      simp
      omega
    | cons y ys =>
      have hxy : x < y := (List.pairwise_cons.mp hsorted).1 y (List.mem_cons_self _ _)
      have h := ih y ys rfl (List.pairwise_cons.mp hsorted).2
        (fun k hk => hb k (List.mem_cons_of_mem _ hk))
      simp only [List.length_cons] at h ⊢
      push_cast at h ⊢
      omega

theorem sorted_head_le (a : Int) (rest : List Int) (hsorted : (a :: rest).Pairwise (· < ·))
    (k : Int) (hk : k ∈ a :: rest) : a ≤ k := by
  rcases List.mem_cons.mp hk with h | h
  · exact le_of_eq h.symm
  · exact le_of_lt ((List.pairwise_cons.mp hsorted).1 k h)

theorem App.getActiveDepth_eq_some (s : App) (d : Int) (h : s.getActiveDepth = some d) :
    ∃ pd, s.m_projects_data.find? s.m_selected_project = some pd ∧ pd.depth = d := by
  unfold App.getActiveDepth at h
  cases hf : s.m_projects_data.find? s.m_selected_project with
  | none => rw [hf] at h; simp at h
  | some pd =>
    rw [hf] at h
    exact ⟨pd, rfl, by simpa using h⟩

theorem App.rightPress_step (env : Env) (io : UiCapture) (s : App) (project : LDtkProject)
    (world : World) (first : Int × List Level) (d : Int)
    (hio : io.WantCaptureMouse = false)
    (hproj : s.getActiveProject = some project)
    (hworld : project.worlds.head? = some world)
    (hfirst : world.levels.head? = some first)
    (hdepth : s.getActiveDepth = some d) :
    ∃ s', App.processEvent env io s rightPress = some s' ∧
      s'.getActiveDepth = some (App.cycledDepth d first.1 world.levels.length) ∧
      s'.getActiveCamera = s.getActiveCamera ∧
      (∀ j, j ≠ s.m_selected_project →
        s'.m_projects_data.find? j = s.m_projects_data.find? j) ∧
      s'.m_projects = s.m_projects ∧
      s'.m_selected_project = s.m_selected_project ∧
      s'.m_dummy_project = s.m_dummy_project ∧
      s'.camera_grabbed = s.camera_grabbed := by
  obtain ⟨pd, hpd, hpdd⟩ := App.getActiveDepth_eq_some s d hdepth
  refine ⟨{ s with
    m_projects_data := s.m_projects_data.adjust s.m_selected_project
      (fun x => { x with depth := App.cycledDepth d first.1 world.levels.length }) },
    ?_, ?_, ?_, ?_, rfl, rfl, rfl, rfl⟩
  · simp [App.processEvent, rightPress, hio, GLFW_MOUSE_BUTTON_LEFT, GLFW_MOUSE_BUTTON_RIGHT,
      GLFW_PRESS, App.cycleDepth, hproj, hworld, hfirst, hdepth]
  · simp [App.getActiveDepth, StdMap.find?_adjust, hpd]
  · simp [App.getActiveCamera, StdMap.find?_adjust, hpd]
  · intro j hj
    simp [StdMap.find?_adjust, hj]

theorem App.getActiveProject_congr (s s' : App) (h1 : s'.m_projects = s.m_projects)
    (h2 : s'.m_selected_project = s.m_selected_project)
    (h3 : s'.m_dummy_project = s.m_dummy_project) :
    s'.getActiveProject = s.getActiveProject := by
  unfold App.getActiveProject
  rw [h1, h2, h3]

theorem App.rightPress_iterate (env : Env) (io : UiCapture) (project : LDtkProject)
    (world : World) (first : Int × List Level)
    (hio : io.WantCaptureMouse = false)
    (hworld : project.worlds.head? = some world)
    (hfirst : world.levels.head? = some first)
    (ho : IsInt32 first.1)
    (hcount : (world.levels.length : Int) < 2 ^ 31)
    (hmax : first.1 + (world.levels.length : Int) - 1 < 2 ^ 31)
    (n : Nat) (s : App) (d : Int)
    (hproj : s.getActiveProject = some project)
    (hdepth : s.getActiveDepth = some d)
    (hge : first.1 ≤ d) (hle : d ≤ first.1 + (world.levels.length : Int) - 1) :
    ∃ s', App.processEvents env s (List.replicate n (io, rightPress)) = some s' ∧
      s'.getActiveDepth =
        some (first.1 + (d - first.1 + (n : Int)) % (world.levels.length : Int)) ∧
      s'.getActiveProject = some project := by
  have hc : 0 < world.levels.length := by
    cases hl : world.levels with
    | nil => rw [hl] at hfirst; simp at hfirst
    | cons a l => simp
  have hcpos : (0 : Int) < (world.levels.length : Int) := by exact_mod_cast hc
  induction n generalizing s d with
  | zero =>
    refine ⟨s, rfl, ?_, hproj⟩
    rw [hdepth]
    have : (d - first.1 + ((0 : Nat) : Int)) % (world.levels.length : Int) = d - first.1 := by
      rw [Nat.cast_zero, add_zero]
      apply Int.emod_eq_of_lt <;> omega
    rw [this]
    congr 1
    omega
  | succ n ih =>
    obtain ⟨s1, hs1, hd1, _, _, hp1, hsel1, hdum1, _⟩ :=
      App.rightPress_step env io s project world first d hio hproj hworld hfirst hdepth
    rw [App.cycledDepth_eq_specCycle d first.1 world.levels.length ho hge (by omega) hc hmax]
      at hd1
    have hrange := specCycle_range d first.1 world.levels.length hc
    have hproj1 : s1.getActiveProject = some project := by
      rw [App.getActiveProject_congr s s1 hp1 hsel1 hdum1]
      exact hproj
    obtain ⟨s2, hs2, hd2, hp2⟩ := ih s1 _ hproj1 hd1 hrange.1 hrange.2
    refine ⟨s2, ?_, ?_, hp2⟩
    · simp only [List.replicate_succ, App.processEvents, hs1]
      exact hs2
    · rw [hd2]
      congr 2
      unfold specCycle
      have : (d + 1 - first.1) % (world.levels.length : Int) + first.1 - first.1 + (n : Int)
          = (d + 1 - first.1) % (world.levels.length : Int) + (n : Int) := by ring
      rw [this, Int.emod_add_emod]
      congr 1
      push_cast
      ring

theorem mem_contiguousKeys (offset : Int) (count : Nat) (k : Int) :
    k ∈ contiguousKeys offset count ↔ offset ≤ k ∧ k < offset + (count : Int) := by
  unfold contiguousKeys
  simp only [List.mem_map, List.mem_range]
  constructor
  · rintro ⟨i, hi, rfl⟩
    omega
  · rintro ⟨h1, h2⟩
    refine ⟨(k - offset).toNat, ?_, ?_⟩ <;> omega

theorem World.levels_length_pos (world : World) (first : Int × List Level)
    (hfirst : world.levels.head? = some first) :
    0 < world.levels.length ∧ ∃ rest, world.levels.map Prod.fst = first.1 :: rest := by
  cases hl : world.levels with
  | nil => rw [hl] at hfirst; simp at hfirst
  | cons a l =>
    rw [hl] at hfirst
    simp only [List.head?_cons, Option.some.injEq] at hfirst
    subst hfirst
    exact ⟨by simp, l.map Prod.fst, by simp⟩

/-- C3, as the code has it: when the first world of the active project has a non-empty depth
map with minimum key `offset` and `count` distinct keys, all of them values of `int`, and the
current depth `d >= offset` is such that `d + 1 - offset` does not overflow an `int`, a
right-button press with the UI not capturing the mouse sets the active depth to
`((d + 1 - offset) mod count) + offset` and changes no other project's data, nor the active
camera; the new depth lies in `[offset, offset + count - 1]`; and when moreover
`d <= offset + count - 1` (as when the keys are contiguous and `d` is one of them), `count`
successive presses return the depth to `d`. -/
theorem C3_depth_cycle_formula (env : Env) (io : UiCapture) (s : App)
    (project : LDtkProject) (world : World) (first : Int × List Level) (d : Int)
    (hio : io.WantCaptureMouse = false)
    (hproj : s.getActiveProject = some project)
    (hworld : project.worlds.head? = some world)
    (hfirst : world.levels.head? = some first)
    (hsorted : (world.levels.map Prod.fst).Pairwise (· < ·))
    (hkeys : ∀ k ∈ world.levels.map Prod.fst, IsInt32 k)
    (hdepth : s.getActiveDepth = some d)
    (hge : first.1 ≤ d) (hov : d + 1 - first.1 < 2 ^ 31) :
    (∀ k ∈ world.levels.map Prod.fst, first.1 ≤ k) ∧
    ∃ s', App.processEvent env io s rightPress = some s' ∧
      s'.getActiveDepth = some (specCycle first.1 world.levels.length d) ∧
      (∀ j, j ≠ s.m_selected_project →
        s'.m_projects_data.find? j = s.m_projects_data.find? j) ∧
      s'.getActiveCamera = s.getActiveCamera ∧
      s'.m_projects = s.m_projects ∧
      s'.m_selected_project = s.m_selected_project ∧
      first.1 ≤ specCycle first.1 world.levels.length d ∧
      specCycle first.1 world.levels.length d ≤ first.1 + (world.levels.length : Int) - 1 ∧
      (d ≤ first.1 + (world.levels.length : Int) - 1 →
        (world.levels.length : Int) < 2 ^ 31 →
        ∃ s'', App.processEvents env s
            (List.replicate world.levels.length (io, rightPress)) = some s'' ∧
          s''.getActiveDepth = some d) := by
  obtain ⟨hc, rest, hrest⟩ := World.levels_length_pos world first hfirst
  have hmin : ∀ k ∈ world.levels.map Prod.fst, first.1 ≤ k := by
    intro k hk
    rw [hrest] at hk hsorted
    exact sorted_head_le first.1 rest hsorted k hk
  have ho : IsInt32 first.1 := hkeys first.1 (by rw [hrest]; exact List.mem_cons_self _ _)
  have hmax : first.1 + (world.levels.length : Int) - 1 < 2 ^ 31 := by
    have h := sorted_keys_bound (world.levels.map Prod.fst) first.1 rest hrest hsorted (2 ^ 31)
      (fun k hk => (hkeys k hk).2)
    simpa using h
  obtain ⟨s', hs', hd', hcam, hframe, hp, hsel, _, _⟩ :=
    App.rightPress_step env io s project world first d hio hproj hworld hfirst hdepth
  rw [App.cycledDepth_eq_specCycle d first.1 world.levels.length ho hge hov hc hmax] at hd'
  have hrange := specCycle_range d first.1 world.levels.length hc
  refine ⟨hmin, s', hs', hd', hframe, hcam, hp, hsel, hrange.1, hrange.2, ?_⟩
  intro hle hcount
  obtain ⟨s'', hs'', hd'', _⟩ :=
    App.rightPress_iterate env io project world first hio hworld hfirst ho hcount hmax
      world.levels.length s d hproj hdepth hge hle
  refine ⟨s'', hs'', ?_⟩
  rw [hd'']
  have hcpos : (0 : Int) < (world.levels.length : Int) := by exact_mod_cast hc
  rw [Int.add_emod_self, Int.emod_eq_of_lt (by omega) (by omega)]
  congr 1
  omega

/-- C3, at depths `{2, 3, 4}` and current depth 4: one right click selects depth 2. -/
theorem C3_depth_cycle_formula_witness :
    ∃ s', App.processEvent failingEnv ⟨false, false⟩ (appWithDepths [2, 3, 4] 4) rightPress =
        some s' ∧
      s'.getActiveDepth = some 2 := by
  obtain ⟨s', h1, h2, _⟩ :=
    (C3_depth_cycle_formula failingEnv ⟨false, false⟩ (appWithDepths [2, 3, 4] 4)
      (projectWithDepths [2, 3, 4]) ⟨[(2, []), (3, []), (4, [])]⟩ (2, []) 4 rfl rfl rfl rfl
      (by decide) (by decide) rfl (by decide) (by decide)).2
  exact ⟨s', h1, h2⟩

/-- C3 as stated fails: with the contiguous keys `{0, 1}` (offset 0, count 2) and the current
depth `5 >= offset`, two successive right clicks leave the depth at 1, not back at 5; and with
the contiguous keys `{-2, -1}` and the current depth 0, they leave it at -2, not back at 0. -/
theorem C3_no_return_from_depth_above_keys :
    (appWithDepths [0, 1] 5).getActiveDepth = some 5 ∧
    (App.processEvents failingEnv (appWithDepths [0, 1] 5)
      (List.replicate 2 (⟨false, false⟩, rightPress))).bind App.getActiveDepth = some 1 ∧
    (appWithDepths [-2, -1] 0).getActiveDepth = some 0 ∧
    (App.processEvents failingEnv (appWithDepths [-2, -1] 0)
      (List.replicate 2 (⟨false, false⟩, rightPress))).bind App.getActiveDepth = some (-2) := by
  refine ⟨rfl, by decide, rfl, by decide⟩

/-- C2, as the code has it: when the depth keys of the active project's first world are
contiguous integers (all of them values of `int`, fewer than `2^31` of them) and the current
depth is one of them, a right-button press with the UI not capturing the mouse sets the active
depth to the next larger key present, or to the minimum key when the current depth is the
maximum. -/
theorem C2_next_depth_on_contiguous_keys (env : Env) (io : UiCapture) (s : App)
    (project : LDtkProject) (world : World) (first : Int × List Level) (d : Int)
    (hio : io.WantCaptureMouse = false)
    (hproj : s.getActiveProject = some project)
    (hworld : project.worlds.head? = some world)
    (hfirst : world.levels.head? = some first)
    (hcontig : world.levels.map Prod.fst = contiguousKeys first.1 world.levels.length)
    (hkeys : ∀ k ∈ world.levels.map Prod.fst, IsInt32 k)
    (hcount : (world.levels.length : Int) < 2 ^ 31)
    (hdepth : s.getActiveDepth = some d)
    (hmem : d ∈ world.levels.map Prod.fst) :
    ∃ s' n, App.processEvent env io s rightPress = some s' ∧
      s'.getActiveDepth = some n ∧
      IsNextDepth (world.levels.map Prod.fst) d n ∧
      n = (if d = first.1 + (world.levels.length : Int) - 1 then first.1 else d + 1) := by
  obtain ⟨hc, rest, hrest⟩ := World.levels_length_pos world first hfirst
  have hcpos : (0 : Int) < (world.levels.length : Int) := by exact_mod_cast hc
  have ho : IsInt32 first.1 := hkeys first.1 (by rw [hrest]; exact List.mem_cons_self _ _)
  have hlast : IsInt32 (first.1 + (world.levels.length : Int) - 1) := by
    apply hkeys
    rw [hcontig, mem_contiguousKeys]
    omega
  have hd := hmem
  rw [hcontig, mem_contiguousKeys] at hd
  obtain ⟨s', hs', hd', _⟩ :=
    App.rightPress_step env io s project world first d hio hproj hworld hfirst hdepth
  rw [App.cycledDepth_eq_specCycle d first.1 world.levels.length ho hd.1 (by omega) hc hlast.2]
    at hd'
  have hval : specCycle first.1 world.levels.length d =
      (if d = first.1 + (world.levels.length : Int) - 1 then first.1 else d + 1) := by
    unfold specCycle
    by_cases hlastd : d = first.1 + (world.levels.length : Int) - 1
    · rw [if_pos hlastd]
      have : d + 1 - first.1 = (world.levels.length : Int) := by omega
      rw [this, Int.emod_self]
      omega
    · rw [if_neg hlastd, Int.emod_eq_of_lt (by omega) (by omega)]
      omega
  refine ⟨s', _, hs', hd', ?_, hval⟩
  rw [hval]
  unfold IsNextDepth
  rw [hcontig]
  simp only [mem_contiguousKeys]
  by_cases hlastd : d = first.1 + (world.levels.length : Int) - 1
  · rw [if_pos hlastd]
    refine ⟨by omega, ?_, ?_⟩
    · rintro ⟨k, hk, hdk⟩
      omega
    · intro _ k hk
      exact hk.1
  · rw [if_neg hlastd]
    refine ⟨by omega, ?_, ?_⟩
    · intro _
      refine ⟨by omega, ?_⟩
      intro k _ hdk
      omega
    · intro hall
      have := hall (first.1 + (world.levels.length : Int) - 1) (by omega)
      omega

/-- C2, at depths `{2, 3, 4}` and current depth 4: one right click wraps to depth 2, the
minimum key. -/
theorem C2_next_depth_on_contiguous_keys_witness :
    ∃ s', App.processEvent failingEnv ⟨false, false⟩ (appWithDepths [2, 3, 4] 4) rightPress =
        some s' ∧
      s'.getActiveDepth = some 2 ∧ IsNextDepth [2, 3, 4] 4 2 := by
  obtain ⟨s', n, h1, h2, h3, h4⟩ :=
    C2_next_depth_on_contiguous_keys failingEnv ⟨false, false⟩ (appWithDepths [2, 3, 4] 4)
      (projectWithDepths [2, 3, 4]) ⟨[(2, []), (3, []), (4, [])]⟩ (2, []) 4 rfl rfl rfl rfl
      (by decide) (by decide) (by decide) rfl (by decide)
  have hn : n = 2 := by rw [h4]; decide
  subst hn
  exact ⟨s', h1, h2, h3⟩

/-- C2 as stated fails: with depths `{2, 3, 5}` and current depth 5, one right click selects
depth 3, which is not the next depth of the claim (that is 2, the minimum key). -/
theorem C2_sparse_keys_select_other_depth :
    (App.processEvent failingEnv ⟨false, false⟩ (appWithDepths [2, 3, 5] 5) rightPress).bind
      App.getActiveDepth = some 3 ∧
    ¬ IsNextDepth [2, 3, 5] 5 3 ∧ IsNextDepth [2, 3, 5] 5 2 := by
  refine ⟨by decide, by decide, by decide⟩

/-! ## Zoom -/

theorem zoomPositive_mapValues (m : StdMap ProjectData) (f : ProjectData → ProjectData)
    (hf : ∀ d, 0 < d.camera.m_transform.z → 0 < (f d).camera.m_transform.z)
    (h : AllZoomPositive m) : AllZoomPositive (m.mapValues f) := by
  intro e he
  simp only [StdMap.mapValues, List.mem_map] at he
  obtain ⟨a, ha, rfl⟩ := he
  exact hf _ (h a ha)

theorem zoomPositive_adjust (m : StdMap ProjectData) (k : String)
    (f : ProjectData → ProjectData)
    (hf : ∀ d, 0 < d.camera.m_transform.z → 0 < (f d).camera.m_transform.z)
    (h : AllZoomPositive m) : AllZoomPositive (m.adjust k f) := by
  intro e he
  simp only [StdMap.adjust, List.mem_map] at he
  obtain ⟨a, ha, rfl⟩ := he
  by_cases hk : a.1 = k
  · rw [if_pos hk]
    exact hf _ (h a ha)
  · rw [if_neg hk]
    exact h a ha

theorem StdMap.mem_insertNew {V : Type} (m : StdMap V) (k : String) (v : V) (e : String × V)
    (h : e ∈ m.insertNew k v) : e = (k, v) ∨ e ∈ m := by
  induction m with
  | nil =>
    simp only [StdMap.insertNew, List.mem_singleton] at h
    exact Or.inl h
  | cons a rest ih =>
    obtain ⟨k', v'⟩ := a
    simp only [StdMap.insertNew] at h
    by_cases hlt : k.data < k'.data
    · rw [if_pos hlt] at h
      rcases List.mem_cons.mp h with h1 | h2
      · exact Or.inl h1
      · exact Or.inr h2
    · rw [if_neg hlt] at h
      rcases List.mem_cons.mp h with h1 | h2
      · exact Or.inr (h1 ▸ List.mem_cons_self _ _)
      · rcases ih h2 with h3 | h4
        · exact Or.inl h3
        · exact Or.inr (List.mem_cons_of_mem _ h4)

theorem zoomPositive_insert (m : StdMap ProjectData) (k : String) (v : ProjectData)
    (hv : 0 < v.camera.m_transform.z) (h : AllZoomPositive m) :
    AllZoomPositive (m.insert k v) := by
  unfold StdMap.insert
  by_cases hc : m.contains k = true
  · rw [if_pos hc]
    exact h
  · rw [if_neg hc]
    intro e he
    rcases StdMap.mem_insertNew m k v e he with h1 | h2
    · rw [h1]
      exact hv
    · exact h e h2

theorem App.loadLDtkFile_zoom_positive (env : Env) (s : App) (path : String)
    (h : AllZoomPositive s.m_projects_data) :
    AllZoomPositive (App.loadLDtkFile env s path).1.m_projects_data := by
  obtain ⟨hthrow, hret⟩ := App.loadLDtkFile_data env s path
  cases hl : (env.load path ((s.m_projects.find? path).getD LDtkProject.empty)).2 with
  | none =>
    rw [(hthrow hl).2]
    exact h
  | some ok =>
    rw [(hret ok hl).2]
    refine zoomPositive_adjust _ _ _ ?_ ?_
    · intro d hd
      exact hd
    · refine zoomPositive_insert _ _ _ ?_ h
      simp [ProjectData.init, Camera2D.new]

theorem App.dropFiles_cons (env : Env) (s s' : App) (file : String) (rest : List String)
    (hs : App.dropFiles env s (file :: rest) = some s') :
    App.dropFiles env (App.loadLDtkFile env s file).1 rest = some s' := by
  simp only [App.dropFiles] at hs
  cases hl : (App.loadLDtkFile env s file).2 with
  | none => rw [hl] at hs; cases hs
  | some ok =>
    rw [hl] at hs
    exact hs

theorem App.drop_zoom_positive (env : Env) (files : List String) (s s' : App)
    (h : AllZoomPositive s.m_projects_data) (hs : App.dropFiles env s files = some s') :
    AllZoomPositive s'.m_projects_data := by
  induction files generalizing s with
  | nil =>
    simp only [App.dropFiles] at hs
    cases hs
    exact h
  | cons f rest ih =>
    exact ih _ (App.loadLDtkFile_zoom_positive env s f h) (App.dropFiles_cons env s s' f rest hs)

theorem App.cycleDepth_data (s s' : App) (hs : s.cycleDepth = some s') :
    ∃ n : Int, s'.m_projects_data =
      s.m_projects_data.adjust s.m_selected_project (fun d => { d with depth := n }) := by
  unfold App.cycleDepth at hs
  cases h1 : s.getActiveProject with
  | none => rw [h1] at hs; cases hs
  | some project =>
    rw [h1] at hs
    dsimp only at hs
    cases h2 : project.worlds.head? with
    | none => rw [h2] at hs; cases hs
    | some world =>
      rw [h2] at hs
      dsimp only at hs
      cases h3 : world.levels.head? with
      | none => rw [h3] at hs; cases hs
      | some first =>
        rw [h3] at hs
        dsimp only at hs
        cases h4 : s.getActiveDepth with
        | none => rw [h4] at hs; cases hs
        | some current =>
          rw [h4] at hs
          dsimp only at hs
          cases hs
          exact ⟨_, rfl⟩

theorem App.mouseButton_data (env : Env) (io : UiCapture) (s s' : App) (button action : Int)
    (hs : App.processEvent env io s (.MouseButton button action) = some s') :
    s'.m_projects_data = s.m_projects_data ∨
    ∃ n : Int, s'.m_projects_data =
      s.m_projects_data.adjust s.m_selected_project (fun d => { d with depth := n }) := by
  simp only [App.processEvent] at hs
  split_ifs at hs
  all_goals first
    | exact Or.inr (App.cycleDepth_data s s' hs)
    | (cases hs; exact Or.inl rfl)

theorem App.mouseMove_data (env : Env) (io : UiCapture) (s s' : App) (x y : Int)
    (hs : App.processEvent env io s (.MouseMove x y) = some s') :
    s'.m_projects_data = s.m_projects_data ∨
    ∃ dx dy : ℚ, s'.m_projects_data =
      s.m_projects_data.adjust s.m_selected_project
        (fun d => { d with camera := d.camera.move dx dy }) := by
  simp only [App.processEvent] at hs
  by_cases hg : s.camera_grabbed = true
  · rw [if_pos hg] at hs
    cases h1 : s.getActiveCamera with
    | none => rw [h1] at hs; cases hs
    | some camera =>
      rw [h1] at hs
      dsimp only at hs
      cases hs
      exact Or.inr ⟨_, _, rfl⟩
  · rw [if_neg hg] at hs
    cases hs
    exact Or.inl rfl

theorem App.scroll_data (env : Env) (io : UiCapture) (s s' : App) (dx dy : ℚ)
    (hs : App.processEvent env io s (.Scroll dx dy) = some s') :
    s'.m_projects_data = s.m_projects_data ∨
    s'.m_projects_data =
      s.m_projects_data.adjust s.m_selected_project
        (fun d => { d with camera := d.camera.zoom (9 / 10) }) ∨
    s'.m_projects_data =
      s.m_projects_data.adjust s.m_selected_project
        (fun d => { d with camera := d.camera.zoom (11 / 10) }) := by
  simp only [App.processEvent] at hs
  by_cases hio : (!io.WantCaptureMouse) = true
  · rw [if_pos hio] at hs
    cases h1 : s.getActiveCamera with
    | none => rw [h1] at hs; cases hs
    | some camera =>
      rw [h1] at hs
      dsimp only at hs
      split_ifs at hs
      · cases hs
        exact Or.inr (Or.inl rfl)
      · cases hs
        exact Or.inr (Or.inr rfl)
      · cases hs
        exact Or.inl rfl
  · rw [if_neg hio] at hs
    cases hs
    exact Or.inl rfl

theorem App.resize_data (env : Env) (io : UiCapture) (s s' : App) (w h : Int)
    (hs : App.processEvent env io s (.Resize w h) = some s') :
    s'.m_projects_data =
      s.m_projects_data.mapValues
        (fun d => { d with camera := d.camera.setSize ⟨(w : ℚ), (h : ℚ)⟩ }) := by
  simp only [App.processEvent] at hs
  cases hs
  rfl

theorem App.key_data (env : Env) (io : UiCapture) (s s' : App) (key action : Int)
    (hs : App.processEvent env io s (.Key key action) = some s') :
    s'.m_projects_data = s.m_projects_data := by
  simp only [App.processEvent] at hs
  split_ifs at hs
  all_goals (cases hs; rfl)

theorem App.processEvent_zoom_positive (env : Env) (io : UiCapture) (s s' : App) (e : Event)
    (h : AllZoomPositive s.m_projects_data) (hs : App.processEvent env io s e = some s') :
    AllZoomPositive s'.m_projects_data := by
  cases e with
  | Resize w hgt =>
    simp only [App.processEvent] at hs
    rw [App.resize_data env io s s' w hgt hs]
    refine zoomPositive_mapValues _ _ ?_ h
    intro d hd
    exact hd
  | Drop files =>
    simp only [App.processEvent] at hs
    exact App.drop_zoom_positive env files s s' h hs
  | Key key action =>
    rw [App.key_data env io s s' key action hs]
    exact h
  | MouseButton button action =>
    rcases App.mouseButton_data env io s s' button action hs with h1 | ⟨n, h1⟩
    · rw [h1]
      exact h
    · rw [h1]
      refine zoomPositive_adjust _ _ _ ?_ h
      intro d hd
      exact hd
  | MouseMove x y =>
    rcases App.mouseMove_data env io s s' x y hs with h1 | ⟨dx, dy, h1⟩
    · rw [h1]
      exact h
    · rw [h1]
      refine zoomPositive_adjust _ _ _ ?_ h
      intro d hd
      exact hd
  | Scroll dx dy =>
    rcases App.scroll_data env io s s' dx dy hs with h1 | h1 | h1
    · rw [h1]
      exact h
    · rw [h1]
      refine zoomPositive_adjust _ _ _ ?_ h
      intro d hd
      show 0 < d.camera.m_transform.z * (9 / 10)
      exact mul_pos hd (by norm_num)
    · rw [h1]
      refine zoomPositive_adjust _ _ _ ?_ h
      intro d hd
      show 0 < d.camera.m_transform.z * (11 / 10)
      exact mul_pos hd (by norm_num)
  | Other =>
    simp only [App.processEvent] at hs
    cases hs
    exact h

theorem App.processEvents_zoom_positive (env : Env) (evs : List (UiCapture × Event))
    (s s' : App) (h : AllZoomPositive s.m_projects_data)
    (hs : App.processEvents env s evs = some s') : AllZoomPositive s'.m_projects_data := by
  induction evs generalizing s with
  | nil =>
    simp only [App.processEvents] at hs
    cases hs
    exact h
  | cons ev rest ih =>
    obtain ⟨io, e⟩ := ev
    simp only [App.processEvents] at hs
    cases h1 : App.processEvent env io s e with
    | none => rw [h1] at hs; cases hs
    | some s1 =>
      rw [h1] at hs
      exact ih s1 (App.processEvent_zoom_positive env io s s1 e h h1) hs

theorem zoomKept_refl (m : StdMap ProjectData) : ZoomKept m m :=
  fun _ d h => ⟨d, h, rfl⟩

theorem zoomKept_trans (m1 m2 m3 : StdMap ProjectData) (h12 : ZoomKept m1 m2)
    (h23 : ZoomKept m2 m3) : ZoomKept m1 m3 := by
  intro k d h
  obtain ⟨d2, hd2, hz2⟩ := h12 k d h
  obtain ⟨d3, hd3, hz3⟩ := h23 k d2 hd2
  exact ⟨d3, hd3, hz3.trans hz2⟩

theorem zoomKept_mapValues (m : StdMap ProjectData) (f : ProjectData → ProjectData)
    (hf : ∀ d, (f d).camera.m_transform.z = d.camera.m_transform.z) :
    ZoomKept m (m.mapValues f) := by
  intro k d h
  refine ⟨f d, ?_, hf d⟩
  rw [StdMap.find?_mapValues, h]
  rfl

theorem zoomKept_adjust (m : StdMap ProjectData) (key : String)
    (f : ProjectData → ProjectData)
    (hf : ∀ d, (f d).camera.m_transform.z = d.camera.m_transform.z) :
    ZoomKept m (m.adjust key f) := by
  intro k d h
  rw [StdMap.find?_adjust]
  by_cases hk : k = key
  · subst hk
    rw [if_pos rfl, h]
    exact ⟨f d, rfl, hf d⟩
  · rw [if_neg hk]
    exact ⟨d, h, rfl⟩

theorem zoomKept_insert (m : StdMap ProjectData) (key : String) (v : ProjectData) :
    ZoomKept m (m.insert key v) := by
  intro k d h
  rw [StdMap.find?_insert]
  by_cases hk : k = key
  · subst hk
    rw [if_pos rfl, h]
    exact ⟨d, rfl, rfl⟩
  · rw [if_neg hk]
    exact ⟨d, h, rfl⟩

theorem App.loadLDtkFile_zoom_kept (env : Env) (s : App) (path : String) :
    ZoomKept s.m_projects_data (App.loadLDtkFile env s path).1.m_projects_data := by
  obtain ⟨hthrow, hret⟩ := App.loadLDtkFile_data env s path
  cases hl : (env.load path ((s.m_projects.find? path).getD LDtkProject.empty)).2 with
  | none =>
    rw [(hthrow hl).2]
    exact zoomKept_refl _
  | some ok =>
    rw [(hret ok hl).2]
    exact zoomKept_trans _ _ _ (zoomKept_insert _ _ _) (zoomKept_adjust _ _ _ (fun _ => rfl))

theorem App.drop_zoom_kept (env : Env) (files : List String) (s s' : App)
    (hs : App.dropFiles env s files = some s') :
    ZoomKept s.m_projects_data s'.m_projects_data := by
  induction files generalizing s with
  | nil =>
    simp only [App.dropFiles] at hs
    cases hs
    exact zoomKept_refl _
  | cons f rest ih =>
    exact zoomKept_trans _ _ _ (App.loadLDtkFile_zoom_kept env s f)
      (ih _ (App.dropFiles_cons env s s' f rest hs))

theorem App.processEvent_zoom_kept (env : Env) (io : UiCapture) (s s' : App) (e : Event)
    (hne : ∀ dx dy, e ≠ .Scroll dx dy) (hs : App.processEvent env io s e = some s') :
    ZoomKept s.m_projects_data s'.m_projects_data := by
  cases e with
  | Resize w hgt =>
    rw [App.resize_data env io s s' w hgt hs]
    exact zoomKept_mapValues _ _ (fun _ => rfl)
  | Drop files =>
    simp only [App.processEvent] at hs
    exact App.drop_zoom_kept env files s s' hs
  | Key key action =>
    rw [App.key_data env io s s' key action hs]
    exact zoomKept_refl _
  | MouseButton button action =>
    rcases App.mouseButton_data env io s s' button action hs with h1 | ⟨n, h1⟩
    · rw [h1]
      exact zoomKept_refl _
    · rw [h1]
      exact zoomKept_adjust _ _ _ (fun _ => rfl)
  | MouseMove x y =>
    rcases App.mouseMove_data env io s s' x y hs with h1 | ⟨dx, dy, h1⟩
    · rw [h1]
      exact zoomKept_refl _
    · rw [h1]
      exact zoomKept_adjust _ _ _ (fun _ => rfl)
  | Scroll dx dy => exact absurd rfl (hne dx dy)
  | Other =>
    simp only [App.processEvent] at hs
    cases hs
    exact zoomKept_refl _

theorem App.getActiveCamera_eq_some (s : App) (cam : Camera2D)
    (h : s.getActiveCamera = some cam) :
    ∃ pd, s.m_projects_data.find? s.m_selected_project = some pd ∧ pd.camera = cam := by
  unfold App.getActiveCamera at h
  cases hf : s.m_projects_data.find? s.m_selected_project with
  | none => rw [hf] at h; simp at h
  | some pd =>
    rw [hf] at h
    exact ⟨pd, rfl, by simpa using h⟩

theorem App.scroll_zoom (env : Env) (io : UiCapture) (s : App) (dx dy : ℚ) (cam : Camera2D)
    (hio : io.WantCaptureMouse = false) (hcam : s.getActiveCamera = some cam) :
    (dy < 0 →
      ∃ s', App.processEvent env io s (.Scroll dx dy) = some s' ∧
        s'.getActiveCamera = some (cam.zoom (9 / 10)) ∧
        ∀ j, j ≠ s.m_selected_project →
          s'.m_projects_data.find? j = s.m_projects_data.find? j) ∧
    (0 < dy →
      ∃ s', App.processEvent env io s (.Scroll dx dy) = some s' ∧
        s'.getActiveCamera = some (cam.zoom (11 / 10)) ∧
        ∀ j, j ≠ s.m_selected_project →
          s'.m_projects_data.find? j = s.m_projects_data.find? j) ∧
    (dy = 0 → App.processEvent env io s (.Scroll dx dy) = some s) := by
  obtain ⟨pd, hpd, hpc⟩ := App.getActiveCamera_eq_some s cam hcam
  refine ⟨fun hdy => ?_, fun hdy => ?_, fun hdy => ?_⟩
  · refine ⟨{ s with
      m_projects_data := s.m_projects_data.adjust s.m_selected_project
        (fun d => { d with camera := d.camera.zoom (9 / 10) }) }, ?_, ?_, ?_⟩
    · simp [App.processEvent, hio, hcam, hdy]
    · simp [App.getActiveCamera, StdMap.find?_adjust, hpd, hpc]
    · intro j hj
      simp [StdMap.find?_adjust, hj]
  · refine ⟨{ s with
      m_projects_data := s.m_projects_data.adjust s.m_selected_project
        (fun d => { d with camera := d.camera.zoom (11 / 10) }) }, ?_, ?_, ?_⟩
    · simp [App.processEvent, hio, hcam, hdy, not_lt_of_gt hdy]
    · simp [App.getActiveCamera, StdMap.find?_adjust, hpd, hpc]
    · intro j hj
      simp [StdMap.find?_adjust, hj]
  · simp [App.processEvent, hio, hcam, hdy]

/-- C10: in exact arithmetic, if every camera has a positive zoom then after every finite
sequence of events that `processEvent` handles every camera has a positive zoom, and the
controller starts with positive zooms. With the UI not capturing the mouse a `Scroll` with
`dy < 0` multiplies the active camera's zoom by 0.9 and one with `dy > 0` by 1.1, touching no
other project's data; a `Scroll` with `dy = 0`, or with the UI capturing the mouse, leaves the
state as it is; and an event that is not a `Scroll` keeps the zoom of every camera. -/
theorem C10_zoom_stays_positive (env : Env) (evs : List (UiCapture × Event)) (s s' : App)
    (hpos : AllZoomPositive s.m_projects_data)
    (hrun : App.processEvents env s evs = some s') :
    AllZoomPositive s'.m_projects_data ∧
    AllZoomPositive (App.new env).m_projects_data ∧
    (∀ (io : UiCapture) (t : App) (dx dy : ℚ) (cam : Camera2D),
      io.WantCaptureMouse = false → t.getActiveCamera = some cam →
      (dy < 0 →
        ∃ t', App.processEvent env io t (.Scroll dx dy) = some t' ∧
          t'.getActiveCamera = some (cam.zoom (9 / 10)) ∧
          ∀ j, j ≠ t.m_selected_project →
            t'.m_projects_data.find? j = t.m_projects_data.find? j) ∧
      (0 < dy →
        ∃ t', App.processEvent env io t (.Scroll dx dy) = some t' ∧
          t'.getActiveCamera = some (cam.zoom (11 / 10)) ∧
          ∀ j, j ≠ t.m_selected_project →
            t'.m_projects_data.find? j = t.m_projects_data.find? j) ∧
      (dy = 0 → App.processEvent env io t (.Scroll dx dy) = some t)) ∧
    (∀ (cam : Camera2D) (f : ℚ), (cam.zoom f).m_transform.z = cam.m_transform.z * f) ∧
    (∀ (io : UiCapture) (t : App) (dx dy : ℚ),
      io.WantCaptureMouse = true → App.processEvent env io t (.Scroll dx dy) = some t) ∧
    (∀ (io : UiCapture) (t t' : App) (e : Event),
      (∀ dx dy, e ≠ .Scroll dx dy) → App.processEvent env io t e = some t' →
      ZoomKept t.m_projects_data t'.m_projects_data) := by
  refine ⟨App.processEvents_zoom_positive env evs s s' hpos hrun, ?_, ?_, fun _ _ => rfl, ?_, ?_⟩
  · intro e he
    have hmem := StdMap.mem_insertNew ([] : StdMap ProjectData) "" (ProjectData.init env) e he
    rcases hmem with h1 | h2
    · rw [h1]
      simp [ProjectData.init, Camera2D.new]
    · simp at h2
  · intro io t dx dy cam hio hcam
    exact App.scroll_zoom env io t dx dy cam hio hcam
  · intro io t dx dy hio
    simp [App.processEvent, hio]
  · intro io t t' e hne hs
    exact App.processEvent_zoom_kept env io t t' e hne hs

/-- C10, at the freshly constructed controller and a batch of three scroll events: the batch
is handled and every camera has a positive zoom afterwards. -/
theorem C10_zoom_stays_positive_witness :
    AllZoomPositive (App.new failingEnv).m_projects_data ∧
    ∃ s', App.processEvents failingEnv (App.new failingEnv) scrollBatch = some s' ∧
      AllZoomPositive s'.m_projects_data := by
  have hpos : AllZoomPositive (App.new failingEnv).m_projects_data := by
    intro e he
    have hmem := StdMap.mem_insertNew ([] : StdMap ProjectData) ""
      (ProjectData.init failingEnv) e he
    rcases hmem with h1 | h2
    · rw [h1]
      simp [ProjectData.init, Camera2D.new]
    · simp at h2
  have hsome : ∃ s', App.processEvents failingEnv (App.new failingEnv) scrollBatch = some s' :=
    ⟨_, rfl⟩
  obtain ⟨s', hrun⟩ := hsome
  exact ⟨hpos, s', hrun,
    (C10_zoom_stays_positive failingEnv scrollBatch (App.new failingEnv) s' hpos hrun).1⟩

end LDtkViewer
